import Mathlib

/-!
Game of Life: the generation-advance functions of `life.c`.

A shallow embedding of `hedge_life`, `torus_life`, `klein_life` and
`init_matrix` (`src/life.c`) and of `main` (`src/gl.c`), and the properties
the specification states about them.

Modelling conventions.

* A matrix `unsigned char **` is the map from a pair of indices to the byte
  stored there (`Grid`).  The two buffers `A` and `B` are distinct objects, as
  in `main`, which obtains them from two calls of `init_matrix`.
* The buffers passed to a life function are the ones `init_matrix (rows, cols)`
  returned, so an access at `(i, j)` is defined exactly when
  `0 ≤ i < rows` and `0 ≤ j < cols`.  `load` and `store` check this and the
  embedded functions return `none` at the first undefined access; `cmod`
  returns `none` for a zero divisor.
* C `int` values are integers.  Inside the loops `0 ≤ i < rows` and
  `0 ≤ j < cols`, the offsets lie in `[-1, 1]` and `chk` stays in `[-1, 9]`, so
  no `int` operation of these functions can overflow and no reduction modulo
  `2 ^ 32` is needed.
* `a % b` and `a / b` of C truncate towards zero: `Int.tmod`, `Int.tdiv`.
* `malloc` is a parameter (`Heap`): whether each allocation succeeds and what
  the fresh memory holds.  The library calls of `main` (`getopt`, `atoi`,
  `sscanf`, `fopen`, `fgets`) and `init_sdl_info` are parameters of a run
  (`Env`, and the list of options `getopt` returns).  Rendering is outside the
  embedding; of the events only the quit request is kept.
* `for (i = lo; i < hi; i++)` with a body that does not assign `i` runs the
  body for `lo, lo + 1, ...`, `(hi - lo).toNat` times: `forUp`.
-/

namespace Life

/-! ## The embedded program -/

/-- Contents of a matrix: the byte stored at row `i`, column `j`. -/
abbrev Grid := Int → Int → Nat

/-- Validity of the access `M[i][j]` in a matrix allocated by
`init_matrix (rows, cols)`. -/
def inGrid (rows cols i j : Int) : Prop :=
  0 ≤ i ∧ i < rows ∧ 0 ≤ j ∧ j < cols

instance (rows cols i j : Int) : Decidable (inGrid rows cols i j) := by
  unfold inGrid; infer_instance

/-- Reading `M[i][j]`: defined only inside the allocated matrix. -/
def load (M : Grid) (rows cols i j : Int) : Option Nat :=
  if inGrid rows cols i j then some (M i j) else none

/-- The matrix after the assignment `M[i][j] = v`. -/
def setCell (M : Grid) (i j : Int) (v : Nat) : Grid :=
  fun p q => if p = i ∧ q = j then v else M p q

/-- Writing `M[i][j] = v`: defined only inside the allocated matrix. -/
def store (M : Grid) (rows cols i j : Int) (v : Nat) : Option Grid :=
  if inGrid rows cols i j then some (setCell M i j v) else none

/-- C remainder `a % b` on `int`: truncated, undefined for `b = 0`. -/
def cmod (a b : Int) : Option Int :=
  if b = 0 then none else some (Int.tmod a b)

/-- The loop `for (k = lo; k < lo + n; k++) body`, threading the state. -/
def forUp {σ : Type} : Nat → Int → (Int → σ → Option σ) → σ → Option σ
  | 0, _, _, s => some s
  | n + 1, lo, body, s => (body lo s).bind (forUp n (lo + 1) body)

/-- Lines 86-96 of `life.c`: the neighbour scan of `hedge_life` for cell
`(i, j)`, the value of `chk` after the two offset loops. -/
def hedge_count (A : Grid) (rows cols i j : Int) : Option Int :=
  forUp 3 (-1) (fun x chk =>
    forUp 3 (-1) (fun y chk =>
      if i + x < rows ∧ j + y < cols then
        if i + x ≥ 0 ∧ j + y ≥ 0 then
          (load A rows cols (i + x) (j + y)).bind fun v =>
            some (if v = 1 then chk + 1 else chk)
        else some chk
      else some chk) chk) 0

/-- Lines 147-152 of `life.c`: the pair `(tmp1, tmp2)` that `torus_life`
reads for cell `(i, j)` and offset `(x, y)`. -/
def torus_resolve (rows cols i j x y : Int) : Option (Int × Int) :=
  (cmod (i + x) rows).bind fun tmp1 =>
  (cmod (j + y) cols).bind fun tmp2 =>
    let tmp1 := if tmp1 < 0 then rows - 1 else tmp1
    let tmp2 := if tmp2 < 0 then cols - 1 else tmp2
    some (tmp1, tmp2)

/-- Lines 142-157 of `life.c`: the neighbour scan of `torus_life`. -/
def torus_count (A : Grid) (rows cols i j : Int) : Option Int :=
  forUp 3 (-1) (fun x chk =>
    forUp 3 (-1) (fun y chk =>
      (torus_resolve rows cols i j x y).bind fun t =>
      (load A rows cols t.1 t.2).bind fun v =>
        some (if v = 1 then chk + 1 else chk)) chk) 0

/-- Lines 209-220 of `life.c`: the pair `(tmp1, tmp2)` that `klein_life`
reads for cell `(i, j)` and offset `(x, y)`. -/
def klein_resolve (rows cols i j x y : Int) : Option (Int × Int) :=
  (cmod (j + y) cols).bind fun tmp2 =>
    let tmp1 := i + x
    let tmp2 := if tmp2 < 0 then cols - 1 else tmp2
    if tmp1 < 0 then
      some (rows - 1, cols - tmp2 - 1)
    else if tmp1 ≥ rows then
      (cmod (i + x) rows).bind fun r => some (r, cols - tmp2 - 1)
    else
      some (tmp1, tmp2)

/-- Lines 204-225 of `life.c`: the neighbour scan of `klein_life`. -/
def klein_count (A : Grid) (rows cols i j : Int) : Option Int :=
  forUp 3 (-1) (fun x chk =>
    forUp 3 (-1) (fun y chk =>
      (klein_resolve rows cols i j x y).bind fun t =>
      (load A rows cols t.1 t.2).bind fun v =>
        some (if v = 1 then chk + 1 else chk)) chk) 0

/-- The rule block that follows the neighbour scan (lines 98-112, repeated
verbatim at 159-173 and 227-241): it reads `A[i][j]` and assigns `B[i][j]`. -/
def apply_rule (A B : Grid) (rows cols i j chk : Int) : Option Grid :=
  (load A rows cols i j).bind fun a =>
    if a = 1 then
      let chk := chk - 1
      if chk < 2 then store B rows cols i j 0
      else if chk > 3 then store B rows cols i j 0
      else store B rows cols i j 1
    else
      (store B rows cols i j 0).bind fun B =>
        if chk = 3 then store B rows cols i j 1 else some B

/-- The clearing loops that end each life function (lines 116-120, 177-181,
245-249): `A[i][j] = 0` for every cell. -/
def clear_loop (A : Grid) (rows cols : Int) : Option Grid :=
  forUp rows.toNat 0 (fun i A =>
    forUp cols.toNat 0 (fun j A => store A rows cols i j 0) A) A

/-- The function `hedge_life (A, B, rows, cols)`: the final contents of the
two buffers, `A` first. -/
def hedge_life (A B : Grid) (rows cols : Int) : Option (Grid × Grid) :=
  (forUp rows.toNat 0 (fun i B =>
    forUp cols.toNat 0 (fun j B =>
      (hedge_count A rows cols i j).bind fun chk =>
        apply_rule A B rows cols i j chk) B) B).bind fun B =>
  (clear_loop A rows cols).bind fun A => some (A, B)

/-- The function `torus_life (A, B, rows, cols)`. -/
def torus_life (A B : Grid) (rows cols : Int) : Option (Grid × Grid) :=
  (forUp rows.toNat 0 (fun i B =>
    forUp cols.toNat 0 (fun j B =>
      (torus_count A rows cols i j).bind fun chk =>
        apply_rule A B rows cols i j chk) B) B).bind fun B =>
  (clear_loop A rows cols).bind fun A => some (A, B)

/-- The function `klein_life (A, B, rows, cols)`. -/
def klein_life (A B : Grid) (rows cols : Int) : Option (Grid × Grid) :=
  (forUp rows.toNat 0 (fun i B =>
    forUp cols.toNat 0 (fun j B =>
      (klein_count A rows cols i j).bind fun chk =>
        apply_rule A B rows cols i j chk) B) B).bind fun B =>
  (clear_loop A rows cols).bind fun A => some (A, B)

/-! ## Closed forms used in the proofs

Each is proved equal to the embedded code above before it is used. -/

/-- Value the rule block assigns to `B[i][j]` when `A[i][j] = a` and the scan
left `chk`. -/
def next_cell (a : Nat) (chk : Int) : Nat :=
  if a = 1 then
    if chk - 1 < 2 then 0 else if chk - 1 > 3 then 0 else 1
  else
    if chk = 3 then 1 else 0

/-- The grid `old` with every in-range cell replaced by that of `new`. -/
def overwrite (new old : Grid) (rows cols : Int) : Grid :=
  fun p q => if inGrid rows cols p q then new p q else old p q

/-- State of a row-major fill of `old` by `new` that has completed the rows
below `i` and the columns below `m` of row `i`. -/
def filled (new old : Grid) (cols i m : Int) : Grid :=
  fun p q =>
    if (0 ≤ p ∧ p < i ∧ 0 ≤ q ∧ q < cols) ∨ (p = i ∧ 0 ≤ q ∧ q < m) then new p q
    else old p q

/-- Contribution of a cell holding `v` to `chk`: 1 when `v == 1`. -/
def ind (v : Nat) : Int := if v = 1 then 1 else 0

/-- Sum over the nine offsets, in the order of the two offset loops. -/
def sum9 (f : Int → Int → Int) : Int :=
  f (-1) (-1) + f (-1) 0 + f (-1) 1 + f 0 (-1) + f 0 0 + f 0 1 + f 1 (-1) + f 1 0 + f 1 1

/-- What offset `(x, y)` adds to `chk` in `hedge_life`. -/
def hedge_term (A : Grid) (rows cols i j x y : Int) : Int :=
  if inGrid rows cols (i + x) (j + y) then ind (A (i + x) (j + y)) else 0

/-- Value of `k % n` after the negative fix-up, for `-1 ≤ k ≤ n`, `n ≥ 1`. -/
def wrapIdx (k n : Int) : Int :=
  if k < 0 then n - 1 else if n ≤ k then k - n else k

/-- What offset `(x, y)` adds to `chk` in `torus_life`. -/
def torus_term (A : Grid) (rows cols i j x y : Int) : Int :=
  ind (A (wrapIdx (i + x) rows) (wrapIdx (j + y) cols))

/-- The pair `klein_life` reads for an in-range cell and offset `(x, y)`. -/
def klein_cell (rows cols i j x y : Int) : Int × Int :=
  if i + x < 0 then (rows - 1, cols - wrapIdx (j + y) cols - 1)
  else if rows ≤ i + x then (i + x - rows, cols - wrapIdx (j + y) cols - 1)
  else (i + x, wrapIdx (j + y) cols)

/-- What offset `(x, y)` adds to `chk` in `klein_life`. -/
def klein_term (A : Grid) (rows cols i j x y : Int) : Int :=
  ind (A (klein_cell rows cols i j x y).1 (klein_cell rows cols i j x y).2)

/-! ## The specification's wording -/

/-- The eight offsets of `{-1,0,1}²` other than `(0,0)`. -/
def offsets8 : List (Int × Int) :=
  [(-1, -1), (-1, 0), (-1, 1), (0, -1), (0, 1), (1, -1), (1, 0), (1, 1)]

/-- Conway's rule in the words of the specification: a cell is alive in the
next generation iff it was alive with 2 or 3 alive neighbours, or was not
alive with exactly 3. -/
def spec_rule (a n : Nat) : Prop :=
  (a = 1 ∧ (n = 2 ∨ n = 3)) ∨ (a ≠ 1 ∧ n = 3)

instance (a n : Nat) : Decidable (spec_rule a n) := by
  unfold spec_rule; infer_instance

/-- Specification, Bounded resolver: the number of non-zero offsets whose
target lies inside the grid and holds an alive cell. -/
def spec_bounded_n (A : Grid) (rows cols i j : Int) : Nat :=
  offsets8.countP fun d =>
    decide ((0 ≤ i + d.1 ∧ i + d.1 < rows ∧ 0 ≤ j + d.2 ∧ j + d.2 < cols) ∧
      A (i + d.1) (j + d.2) = 1)

/-- Specification, Toroidal resolver: `((k mod n) + n) mod n`. -/
def spec_mod (k n : Int) : Int := (k % n + n) % n

/-- Specification, Toroidal resolver: the number of non-zero offsets whose
wrapped target holds an alive cell. -/
def spec_torus_n (A : Grid) (rows cols i j : Int) : Nat :=
  offsets8.countP fun d =>
    decide (A (spec_mod (i + d.1) rows) (spec_mod (j + d.2) cols) = 1)

/-- Specification, Klein resolver: the column wraps, and crossing the top or
the bottom edge inverts the column. -/
def spec_klein_cell (rows cols i j dx dy : Int) : Int × Int :=
  let c := (j + dy) % cols
  if i + dx < 0 then (rows - 1, cols - 1 - c)
  else if i + dx ≥ rows then ((i + dx) % rows, cols - 1 - c)
  else (i + dx, c)

/-- Specification, Klein resolver: the number of non-zero offsets whose
resolved cell is alive. -/
def spec_klein_n (A : Grid) (rows cols i j : Int) : Nat :=
  offsets8.countP fun d =>
    decide (A (spec_klein_cell rows cols i j d.1 d.2).1
      (spec_klein_cell rows cols i j d.1 d.2).2 = 1)

/-! ## Patterns and the tested count -/

/-- The four cells of the 2×2 block whose top-left cell is `(r, c)`. -/
def block_cells (r c : Int) : List (Int × Int) :=
  [(r, c), (r, c + 1), (r + 1, c), (r + 1, c + 1)]

/-- The three cells of a horizontal blinker centred at `(r, c)`. -/
def blinker_h (r c : Int) : List (Int × Int) :=
  [(r, c - 1), (r, c), (r, c + 1)]

/-- The three cells of a vertical blinker centred at `(r, c)`. -/
def blinker_v (r c : Int) : List (Int × Int) :=
  [(r - 1, c), (r, c), (r + 1, c)]

/-- The grid whose alive cells are those of `L`, every other cell 0. -/
def gridOf (L : List (Int × Int)) : Grid :=
  fun i j => if (i, j) ∈ L then 1 else 0

/-- The value of `chk` that the rule block of `hedge_life` tests for cell
`(i, j)` (lines 86-109): the scan result, less one when `A[i][j] == 1`. -/
def hedge_chk (A : Grid) (rows cols i j : Int) : Option Int :=
  (hedge_count A rows cols i j).bind fun chk =>
  (load A rows cols i j).bind fun a => some (if a = 1 then chk - 1 else chk)

/-- The value of `chk` that the rule block of `torus_life` tests (lines
142-170). -/
def torus_chk (A : Grid) (rows cols i j : Int) : Option Int :=
  (torus_count A rows cols i j).bind fun chk =>
  (load A rows cols i j).bind fun a => some (if a = 1 then chk - 1 else chk)

/-- The value of `chk` that the rule block of `klein_life` tests (lines
204-238). -/
def klein_chk (A : Grid) (rows cols i j : Int) : Option Int :=
  (klein_count A rows cols i j).bind fun chk =>
  (load A rows cols i j).bind fun a => some (if a = 1 then chk - 1 else chk)

/-! ## `init_matrix` and `main` -/

/-- Outcome of the `malloc` calls of one `init_matrix` call and the contents
of the fresh memory: `outer_ok` for the array of row pointers (line 30),
`row_ok i` for row `i` (line 35), `junk` the bytes the rows hold before they
are assigned. -/
structure Heap where
  outer_ok : Bool
  row_ok : Int → Bool
  junk : Grid

/-- Lines 34-43 of `life.c`: the row allocation loop, which frees what it has
and leaves with `NULL` at the first failed `malloc`; `false` when it does. -/
def alloc_rows (row_ok : Int → Bool) : Nat → Int → Bool
  | 0, _ => true
  | n + 1, i => if row_ok i then alloc_rows row_ok n (i + 1) else false

/-- The function `init_matrix (rows, cols)`: `some none` for the return value
`NULL`, `some (some a)` for a matrix with contents `a`, and `none` if the
zeroing loops wrote outside `[0,rows) × [0,cols)`. -/
def init_matrix (m : Heap) (rows cols : Int) : Option (Option Grid) :=
  if m.outer_ok = false then some none
  else if alloc_rows m.row_ok rows.toNat 0 = false then some none
  else
    (forUp rows.toNat 0 (fun i a =>
      forUp cols.toNat 0 (fun j a => store a rows cols i j 0) a) m.junk).bind fun a =>
    some (some a)

/-- C quotient `a / b` on 32-bit `int`: truncated towards zero, undefined for
`b = 0` and for `INT_MIN / -1`, whose quotient is not an `int`. -/
def cdiv (a b : Int) : Option Int :=
  if b = 0 then none
  else if a = -2147483648 ∧ b = -1 then none
  else some (Int.tdiv a b)

/-- Lines 83-87 of `gl.c`, the start of `case 'f'`: `ws`, `hs` and the two
matrices, from the values `width`, `height` and `sprite_size` hold when the
option is processed. -/
def main_case_f (mA mB : Heap) (width height sprite_size : Int) :
    Option (Int × Int × Option Grid × Option Grid) :=
  (cdiv width sprite_size).bind fun ws =>
  (cdiv height sprite_size).bind fun hs =>
  (init_matrix mA ws hs).bind fun A =>
  (init_matrix mB ws hs).bind fun B => some (ws, hs, A, B)

/-- Lines 134-165 of `gl.c`: one pass through the body of `while (1)`, the
rendering calls left out; the result is the contents of `A` and of `B`. -/
def main_pass (border : String) (A B : Grid) (ws hs : Int) : Option (Grid × Grid) :=
  (if border = "torus" then
      (torus_life A B ws hs).bind fun r =>
      (torus_life r.2 r.1 ws hs).bind fun r => some (r.2, r.1)
    else some (A, B)).bind fun s =>
  (if border = "hedge" then
      (hedge_life s.1 s.2 ws hs).bind fun r =>
      (hedge_life r.2 r.1 ws hs).bind fun r => some (r.2, r.1)
    else some s).bind fun s =>
  if border = "klein" then
    (klein_life s.1 s.2 ws hs).bind fun r =>
    (klein_life r.2 r.1 ws hs).bind fun r => some (r.2, r.1)
  else some s

/-- The contents of `A` and `B` after `n` passes of the loop of `main`. -/
def main_passes (border : String) (ws hs : Int) : Nat → Grid × Grid → Option (Grid × Grid)
  | 0, s => some s
  | n + 1, s => (main_passes border ws hs n s).bind fun s => main_pass border s.1 s.2 ws hs

/-- Where `main` stands: it has returned with an exit code, or it is in
`while (1)` with the given contents of `A` and `B`. -/
inductive Outcome where
  | exited (code : Int)
  | running (A B : Grid)

/-- Lines 127-185 of `gl.c`: the loop of `main` from the values the locals hold
when option processing ends, for `n` passes; `quit k` tells whether the event
poll of pass `k` sees `SDL_QUIT` or the escape key, on which `main` returns 0.
Between option processing and the loop (lines 119-125) `main` only closes the
pattern file and sets up the window. -/
def main_run (border : String) (ws hs : Int) (quit : Nat → Bool) :
    Nat → Grid × Grid → Option Outcome
  | 0, s => some (Outcome.running s.1 s.2)
  | n + 1, s =>
    (main_run border ws hs quit n s).bind fun o =>
      match o with
      | Outcome.exited code => some (Outcome.exited code)
      | Outcome.running A B =>
        (main_pass border A B ws hs).bind fun s =>
          if quit n then some (Outcome.exited 0) else some (Outcome.running s.1 s.2)

/-- A heap on which every allocation succeeds and fresh memory holds 7. -/
def fullHeap : Heap := ⟨true, fun _ => true, fun _ _ => 7⟩

/-! ## Reads and shifts -/

/-- The number of the 8 non-zero offsets at which `torus_life` reads the cell
`q` while it processes the cell `p`. -/
def torus_reads (rows cols : Int) (p q : Int × Int) : Nat :=
  offsets8.countP fun d => decide (torus_resolve rows cols p.1 p.2 d.1 d.2 = some q)

/-- The number of the 8 non-zero offsets at which `klein_life` reads the cell
`q` while it processes the cell `p`. -/
def klein_reads (rows cols : Int) (p q : Int × Int) : Nat :=
  offsets8.countP fun d => decide (klein_resolve rows cols p.1 p.2 d.1 d.2 = some q)

/-- The grid `A` shifted cyclically by `(a, b)`: the cell `(i, j)` of `A` is
found at `((i + a) mod rows, (j + b) mod cols)`. -/
def shift (A : Grid) (rows cols a b : Int) : Grid :=
  fun p q => A ((p - a) % rows) ((q - b) % cols)

/-! ## The start of `main` -/

/-- What `main` itself prints: the hint of line 53 and the help text of lines
101-113 of `gl.c`. -/
inductive Msg where
  | usage
  | help

/-- The library and collaborator calls `main` makes before its loop, as
parameters of a run: `atoi`; `sscanf` with the input and the format, giving the
values it converts, in order; `fopen`, giving `none` for `NULL` and otherwise
the strings successive `fgets` calls return; the `malloc` outcomes of the
`k`-th call of `init_matrix`; and `init_sdl_info` (not among the sources) with
its arguments, which returns (`none`) or ends the process with a code. -/
structure Env where
  atoi : String → Int
  sscanf : String → String → List Int
  fopen : String → Option (List String)
  heap : Nat → Heap
  sdl_init : Int → Int → Int → Int → Int → Int → Option Int

/-- The locals of `main` (lines 27-50 of `gl.c`); `none` for a variable not
yet assigned, `some none` for a matrix pointer that is `NULL`, `fp = false`
for a `NULL` stream, `calls` the number of `init_matrix` calls made so far. -/
structure Locals where
  width : Int
  height : Int
  sprite_size : Int
  ws : Option Int
  hs : Option Int
  red : Int
  green : Int
  blue : Int
  A : Option (Option Grid)
  B : Option (Option Grid)
  i : Option Int
  j : Option Int
  x : Option Int
  y : Option Int
  border : Option String
  fp : Bool
  calls : Nat

/-- The initial values of lines 27-50. -/
def main_locals : Locals :=
  { width := 800, height := 600, sprite_size := 2, ws := none, hs := none,
    red := 100, green := 100, blue := 250, A := none, B := none, i := none, j := none,
    x := none, y := none, border := none, fp := false, calls := 0 }

/-- The assignments a `sscanf` with two `%d` conversions makes to its two
targets: as many as it converted. -/
def assign2 (vals : List Int) (u v : Option Int) : Option Int × Option Int :=
  match vals with
  | [] => (u, v)
  | [a] => (some a, v)
  | a :: b :: _ => (some a, some b)

/-- Lines 91-94 of `gl.c`: for every string `fgets` returns, `sscanf` into `x`
and `y` and the write `A[i + x][j + y] = 1`, undefined when a variable it
reads was never assigned, when `A` is `NULL` or when the cell is outside the
matrix. -/
def load_pattern (e : Env) (ws hs : Int) (i j : Option Int) :
    List String → Option Int × Option Int × Option Grid →
      Option (Option Int × Option Int × Option Grid)
  | [], st => some st
  | buf :: rest, st =>
    let xy := assign2 (e.sscanf buf "%d %d") st.1 st.2.1
    match i, j, xy.1, xy.2, st.2.2 with
    | some i0, some j0, some x0, some y0, some a =>
      (store a ws hs (i0 + x0) (j0 + y0) 1).bind fun a =>
        load_pattern e ws hs i j rest (some x0, some y0, some a)
    | _, _, _, _, _ => none

/-- Lines 83-95 of `gl.c`, `case 'f'`: the two matrices, then the pattern file:
`fopen`, one `fgets` whose result is dropped, and the loading loop. -/
def main_option_f (e : Env) (l : Locals) (optarg : String) : Option Locals :=
  (main_case_f (e.heap l.calls) (e.heap (l.calls + 1)) l.width l.height
    l.sprite_size).bind fun r =>
  (e.fopen optarg).bind fun lines =>
  (load_pattern e r.1 r.2.1 l.i l.j lines.tail (l.x, l.y, r.2.2.1)).bind fun p =>
    some { l with ws := some r.1, hs := some r.2.1, A := some p.2.2, B := some r.2.2.2,
                  x := p.1, y := p.2.1, fp := true, calls := l.calls + 2 }

/-- Where `main` stands before its loop: it has returned with a code after
printing `out`, the process has ended inside `init_sdl_info`, or it goes on
with the locals `l`. -/
inductive Phase where
  | returned (code : Int) (out : List Msg)
  | left (code : Int)
  | proceeds (l : Locals)

/-- Lines 59-115 of `gl.c`: the `switch` on the character `getopt` returned,
with its `optarg`. -/
def main_option (e : Env) (l : Locals) (c : Char) (optarg : String) : Option Phase :=
  if c = 'w' then some (Phase.proceeds { l with width := e.atoi optarg })
  else if c = 'h' then some (Phase.proceeds { l with height := e.atoi optarg })
  else if c = 'e' then some (Phase.proceeds { l with border := some optarg })
  else if c = 'r' then some (Phase.proceeds { l with red := e.atoi optarg % 256 })
  else if c = 'g' then some (Phase.proceeds { l with green := e.atoi optarg % 256 })
  else if c = 'b' then some (Phase.proceeds { l with blue := e.atoi optarg % 256 })
  else if c = 's' then some (Phase.proceeds { l with sprite_size := e.atoi optarg })
  else if c = 'f' then (main_option_f e l optarg).bind fun l => some (Phase.proceeds l)
  else if c = 'o' then
    some (Phase.proceeds { l with i := (assign2 (e.sscanf optarg "%d,%d") l.i l.j).1,
                                  j := (assign2 (e.sscanf optarg "%d,%d") l.i l.j).2 })
  else if c = 'H' then some (Phase.returned 0 [Msg.help])
  else some (Phase.proceeds l)

/-- Lines 58-116 of `gl.c`: the `getopt` loop over the options of the command
line, given as the characters `getopt` returns with their `optarg`. -/
def main_options (e : Env) : List (Char × String) → Locals → Option Phase
  | [], l => some (Phase.proceeds l)
  | o :: rest, l =>
    (main_option e l o.1 o.2).bind fun ph =>
      match ph with
      | Phase.proceeds l => main_options e rest l
      | Phase.returned code out => some (Phase.returned code out)
      | Phase.left code => some (Phase.left code)

/-- Lines 52-125 of `gl.c`: `main` up to its loop: the `argc` test, the option
loop, `fclose (fp)`, undefined for a `NULL` stream, and `init_sdl_info`. -/
def main_startup (e : Env) (argc : Int) (opts : List (Char × String)) : Option Phase :=
  if argc = 1 then some (Phase.returned 0 [Msg.usage])
  else
    (main_options e opts main_locals).bind fun ph =>
      match ph with
      | Phase.proceeds l =>
        if l.fp = false then none
        else
          match e.sdl_init l.width l.height l.sprite_size l.red l.green l.blue with
          | some code => some (Phase.left code)
          | none => some (Phase.proceeds l)
      | Phase.returned code out => some (Phase.returned code out)
      | Phase.left code => some (Phase.left code)

/-- The function `main` for `n` passes of its loop: the start, then the loop
on the locals the start leaves; undefined when the loop is reached with
`border` never assigned or with a matrix that is `NULL`. -/
def main (e : Env) (argc : Int) (opts : List (Char × String)) (quit : Nat → Bool) (n : Nat) :
    Option Outcome :=
  (main_startup e argc opts).bind fun ph =>
    match ph with
    | Phase.returned code _ => some (Outcome.exited code)
    | Phase.left code => some (Outcome.exited code)
    | Phase.proceeds l =>
      match l.border, l.ws, l.hs, l.A, l.B with
      | some border, some ws, some hs, some (some A), some (some B) =>
        main_run border ws hs quit n (A, B)
      | _, _, _, _, _ => none

/-- The locals with the selector, if one was given, replaced by `s`. -/
def set_border (s : String) (l : Locals) : Locals :=
  { l with border := l.border.map fun _ => s }

/-- The phase with the selector in its locals replaced by `s`. -/
def phase_set_border (s : String) : Phase → Phase
  | Phase.proceeds l => Phase.proceeds (set_border s l)
  | Phase.returned code out => Phase.returned code out
  | Phase.left code => Phase.left code

/-- The options with the argument of every `-e` replaced by `s`. -/
def opts_set_border (s : String) (opts : List (Char × String)) : List (Char × String) :=
  opts.map fun o => if o.1 = 'e' then (o.1, s) else o

/-- A run in which every allocation succeeds, the pattern file holds a header
and the line of one cell, the origin is `(1, 1)` and `init_sdl_info`
returns. -/
def demoEnv : Env :=
  { atoi := fun _ => 0,
    sscanf := fun _ fmt => if fmt = "%d,%d" then [1, 1] else [0, 0],
    fopen := fun _ => some ["#Life 1.06", "0 0"],
    heap := fun _ => fullHeap,
    sdl_init := fun _ _ _ _ _ _ => none }

/-- The options `-e moebius -o 1,1 -f p.lif`. -/
def demoOpts : List (Char × String) :=
  [('e', "moebius"), ('o', "1,1"), ('f', "p.lif")]

/-! ## Loop and scan lemmas -/

theorem forUp_states {σ : Type} (body : Int → σ → Option σ) (f : Int → σ) :
    ∀ (n : Nat) (lo : Int),
      (∀ k, lo ≤ k → k < lo + n → body k (f k) = some (f (k + 1))) →
      forUp n lo body (f lo) = some (f (lo + n)) := by
  intro n
  induction n with
  | zero => intro lo _; simp [forUp]
  | succ n ih =>
    intro lo h
    have h0 : body lo (f lo) = some (f (lo + 1)) := h lo (le_refl _) (by push_cast; omega)
    have h1 := ih (lo + 1) (fun k hk1 hk2 => h k (by omega) (by push_cast; omega))
    simp only [forUp, h0, Option.some_bind, h1]
    congr 2
    push_cast
    ring

theorem filled_step (new old : Grid) (cols i m : Int) (hm : 0 ≤ m) (hmc : m < cols) :
    setCell (filled new old cols i m) i m (new i m) = filled new old cols i (m + 1) := by
  funext p q
  simp only [setCell, filled]
  by_cases h1 : p = i ∧ q = m
  · obtain ⟨rfl, rfl⟩ := h1
    rw [if_pos ⟨rfl, rfl⟩, if_pos (Or.inr ⟨rfl, hm, by omega⟩)]
  · rw [if_neg h1]
    apply if_congr _ rfl rfl
    constructor
    · rintro (h | h)
      · exact Or.inl h
      · exact Or.inr ⟨h.1, h.2.1, by omega⟩
    · rintro (h | h)
      · exact Or.inl h
      · refine Or.inr ⟨h.1, h.2.1, ?_⟩
        have : q ≠ m := fun e => h1 ⟨h.1, e⟩
        omega

theorem filled_row (new old : Grid) (cols i : Int) (hi : 0 ≤ i) :
    filled new old cols i (cols.toNat : Int) = filled new old cols (i + 1) 0 := by
  funext p q
  simp only [filled]
  apply if_congr _ rfl rfl
  constructor
  · rintro (h | h)
    · exact Or.inl ⟨h.1, by omega, h.2.2⟩
    · exact Or.inl ⟨by omega, by omega, h.2.1, by omega⟩
  · rintro (h | h)
    · by_cases hp : p = i
      · exact Or.inr ⟨hp, h.2.2.1, by omega⟩
      · exact Or.inl ⟨h.1, by omega, h.2.2⟩
    · omega

theorem filled_zero (new old : Grid) (cols : Int) : filled new old cols 0 0 = old := by
  funext p q
  simp only [filled]
  rw [if_neg]
  omega

theorem filled_all (new old : Grid) (rows cols : Int) :
    filled new old cols (rows.toNat : Int) 0 = overwrite new old rows cols := by
  funext p q
  simp only [filled, overwrite, inGrid]
  apply if_congr _ rfl rfl
  constructor
  · rintro (h | h)
    · exact ⟨h.1, by omega, h.2.2⟩
    · omega
  · rintro h
    exact Or.inl ⟨h.1, by omega, h.2.2⟩

theorem fill_loops (new : Grid) (body : Int → Int → Grid → Option Grid) (rows cols : Int)
    (hbody : ∀ i j S, inGrid rows cols i j → body i j S = some (setCell S i j (new i j)))
    (old : Grid) :
    forUp rows.toNat 0 (fun i S => forUp cols.toNat 0 (fun j S => body i j S) S) old
      = some (overwrite new old rows cols) := by
  have hrow : ∀ i, 0 ≤ i → i < 0 + (rows.toNat : Int) →
      forUp cols.toNat 0 (fun j S => body i j S) (filled new old cols i 0)
        = some (filled new old cols (i + 1) 0) := by
    intro i hi0 hi1
    have h := forUp_states (fun j S => body i j S) (fun m => filled new old cols i m)
      cols.toNat 0 (by
        intro k hk0 hk1
        show body i k (filled new old cols i k) = _
        rw [hbody i k _ ⟨hi0, by omega, hk0, by omega⟩, filled_step new old cols i k hk0 (by omega)])
    simp only [zero_add] at h
    rw [h, filled_row new old cols i hi0]
  have h := forUp_states (fun i S => forUp cols.toNat 0 (fun j S => body i j S) S)
    (fun k => filled new old cols k 0) rows.toNat 0 hrow
  simp only [zero_add, filled_zero, filled_all] at h
  exact h

theorem apply_rule_eq (A B : Grid) (rows cols i j chk : Int) (h : inGrid rows cols i j) :
    apply_rule A B rows cols i j chk = some (setCell B i j (next_cell (A i j) chk)) := by
  have hs : ∀ (M : Grid) (v : Nat), store M rows cols i j v = some (setCell M i j v) := by
    intro M v; simp [store, h]
  have hdouble : ∀ (M : Grid) (v w : Nat), setCell (setCell M i j v) i j w = setCell M i j w := by
    intro M v w; funext p q; simp only [setCell]; split_ifs <;> rfl
  simp only [apply_rule, load, h, if_true, Option.some_bind, hs, next_cell]
  split_ifs <;> simp_all

theorem tmod_neg_one (n : Int) (hn : 1 < n) : Int.tmod (-1) n = -1 := by
  obtain ⟨m, rfl⟩ := Int.eq_ofNat_of_zero_le (by omega : 0 ≤ n)
  have hm : 1 < m := by omega
  show -((1 % m : Nat) : Int) = -1
  rw [Nat.mod_eq_of_lt hm]
  rfl

theorem tmod_fix (k n : Int) (hn : 1 ≤ n) (hk : -1 ≤ k) (hkn : k ≤ n) :
    (if Int.tmod k n < 0 then n - 1 else Int.tmod k n) = wrapIdx k n := by
  have key : Int.tmod k n = if k < 0 then (if n = 1 then 0 else -1)
      else if n ≤ k then 0 else k := by
    by_cases h0 : k < 0
    · have hk1 : k = -1 := by omega
      subst hk1
      by_cases h1 : n = 1
      · subst h1; simp
      · rw [tmod_neg_one n (by omega)]; simp [h1]
    · by_cases h1 : n ≤ k
      · have : k = n := by omega
        subst this
        simp [h0]
      · rw [Int.tmod_eq_of_lt (by omega) (by omega)]
        simp [h0, h1]
  rw [key]
  unfold wrapIdx
  split_ifs <;> omega

theorem torus_resolve_eq (rows cols i j x y : Int) (h : inGrid rows cols i j)
    (hx : -1 ≤ x ∧ x ≤ 1) (hy : -1 ≤ y ∧ y ≤ 1) :
    torus_resolve rows cols i j x y = some (wrapIdx (i + x) rows, wrapIdx (j + y) cols) := by
  obtain ⟨h1, h2, h3, h4⟩ := h
  have hr : rows ≠ 0 := by omega
  have hc : cols ≠ 0 := by omega
  simp only [torus_resolve, cmod, hr, hc, if_false, Option.some_bind]
  rw [tmod_fix (i + x) rows (by omega) (by omega) (by omega),
    tmod_fix (j + y) cols (by omega) (by omega) (by omega)]

theorem klein_resolve_eq (rows cols i j x y : Int) (h : inGrid rows cols i j)
    (hx : -1 ≤ x ∧ x ≤ 1) (hy : -1 ≤ y ∧ y ≤ 1) :
    klein_resolve rows cols i j x y = some (klein_cell rows cols i j x y) := by
  obtain ⟨h1, h2, h3, h4⟩ := h
  have hr : rows ≠ 0 := by omega
  have hc : cols ≠ 0 := by omega
  simp only [klein_resolve, klein_cell, cmod, hr, hc, if_false, Option.some_bind]
  rw [tmod_fix (j + y) cols (by omega) (by omega) (by omega)]
  by_cases ha : i + x < 0
  · simp only [ha, if_true]
  · simp only [ha, if_false]
    by_cases hb : rows ≤ i + x
    · have hb2 : i + x ≥ rows := hb
      have : i + x = rows := by omega
      simp [this]
    · have hb2 : ¬ (i + x ≥ rows) := hb
      simp only [hb, hb2, if_false]

theorem wrapIdx_range (k n : Int) (hn : 1 ≤ n) (hkn : k ≤ n) :
    0 ≤ wrapIdx k n ∧ wrapIdx k n < n := by
  unfold wrapIdx
  split_ifs <;> omega

theorem klein_cell_range (rows cols i j x y : Int) (h : inGrid rows cols i j)
    (hx : -1 ≤ x ∧ x ≤ 1) (hy : -1 ≤ y ∧ y ≤ 1) :
    inGrid rows cols (klein_cell rows cols i j x y).1 (klein_cell rows cols i j x y).2 := by
  obtain ⟨h1, h2, h3, h4⟩ := h
  have hw := wrapIdx_range (j + y) cols (by omega) (by omega)
  unfold klein_cell inGrid
  split_ifs <;> simp only <;> omega

theorem bump_eq (v : Nat) (chk : Int) : (if v = 1 then chk + 1 else chk) = chk + ind v := by
  unfold ind; split_ifs <;> simp

theorem scan9 (step : Int → Int → Int → Option Int) (t : Int → Int → Int)
    (h : ∀ x y chk, -1 ≤ x → x ≤ 1 → -1 ≤ y → y ≤ 1 → step x y chk = some (chk + t x y)) :
    forUp 3 (-1) (fun x chk => forUp 3 (-1) (fun y chk => step x y chk) chk) 0
      = some (sum9 t) := by
  simp only [forUp, show (-1 : Int) + 1 = 0 from rfl, show (0 : Int) + 1 = 1 from rfl]
  simp (disch := decide) only [h, Option.some_bind, Option.bind_some, sum9, zero_add]

theorem hedge_step (A : Grid) (rows cols i j x y chk : Int) :
    (if i + x < rows ∧ j + y < cols then
        if i + x ≥ 0 ∧ j + y ≥ 0 then
          (load A rows cols (i + x) (j + y)).bind fun v =>
            some (if v = 1 then chk + 1 else chk)
        else some chk
      else some chk) = some (chk + hedge_term A rows cols i j x y) := by
  unfold hedge_term
  by_cases h1 : i + x < rows ∧ j + y < cols
  · by_cases h2 : i + x ≥ 0 ∧ j + y ≥ 0
    · have hg : inGrid rows cols (i + x) (j + y) := ⟨h2.1, h1.1, h2.2, h1.2⟩
      rw [if_pos h1, if_pos h2, if_pos hg]
      simp only [load, hg, if_true, Option.some_bind, bump_eq]
    · rw [if_pos h1, if_neg h2, if_neg (fun h => h2 ⟨h.1, h.2.2.1⟩), add_zero]
  · rw [if_neg h1, if_neg (fun h => h1 ⟨h.2.1, h.2.2.2⟩), add_zero]

theorem hedge_count_eq (A : Grid) (rows cols i j : Int) :
    hedge_count A rows cols i j = some (sum9 (hedge_term A rows cols i j)) :=
  scan9 _ _ (fun x y chk _ _ _ _ => hedge_step A rows cols i j x y chk)

theorem torus_step (A : Grid) (rows cols i j x y chk : Int) (h : inGrid rows cols i j)
    (hx : -1 ≤ x ∧ x ≤ 1) (hy : -1 ≤ y ∧ y ≤ 1) :
    ((torus_resolve rows cols i j x y).bind fun t =>
      (load A rows cols t.1 t.2).bind fun v =>
        some (if v = 1 then chk + 1 else chk)) = some (chk + torus_term A rows cols i j x y) := by
  have hr := wrapIdx_range (i + x) rows (by have := h.1; have := h.2.1; omega)
    (by have := h.2.1; omega)
  have hc := wrapIdx_range (j + y) cols (by have := h.2.2.1; have := h.2.2.2; omega)
    (by have := h.2.2.2; omega)
  have hg : inGrid rows cols (wrapIdx (i + x) rows) (wrapIdx (j + y) cols) :=
    ⟨hr.1, hr.2, hc.1, hc.2⟩
  simp only [torus_resolve_eq rows cols i j x y h hx hy, Option.some_bind, load, hg, if_true,
    bump_eq, torus_term]

theorem torus_count_eq (A : Grid) (rows cols i j : Int) (h : inGrid rows cols i j) :
    torus_count A rows cols i j = some (sum9 (torus_term A rows cols i j)) :=
  scan9 _ _ (fun x y chk hx1 hx2 hy1 hy2 =>
    torus_step A rows cols i j x y chk h ⟨hx1, hx2⟩ ⟨hy1, hy2⟩)

theorem klein_step (A : Grid) (rows cols i j x y chk : Int) (h : inGrid rows cols i j)
    (hx : -1 ≤ x ∧ x ≤ 1) (hy : -1 ≤ y ∧ y ≤ 1) :
    ((klein_resolve rows cols i j x y).bind fun t =>
      (load A rows cols t.1 t.2).bind fun v =>
        some (if v = 1 then chk + 1 else chk)) = some (chk + klein_term A rows cols i j x y) := by
  have hg := klein_cell_range rows cols i j x y h hx hy
  simp only [klein_resolve_eq rows cols i j x y h hx hy, Option.some_bind, load, hg, if_true,
    bump_eq, klein_term]

theorem klein_count_eq (A : Grid) (rows cols i j : Int) (h : inGrid rows cols i j) :
    klein_count A rows cols i j = some (sum9 (klein_term A rows cols i j)) :=
  scan9 _ _ (fun x y chk hx1 hx2 hy1 hy2 =>
    klein_step A rows cols i j x y chk h ⟨hx1, hx2⟩ ⟨hy1, hy2⟩)

/-- Closed form of the grid pair a life function returns, for a scan whose
count at `(i, j)` is `c i j`. -/
theorem life_loops (count : Int → Int → Option Int) (c : Int → Int → Int) (A B : Grid)
    (rows cols : Int) (hc : ∀ i j, inGrid rows cols i j → count i j = some (c i j)) :
    ((forUp rows.toNat 0 (fun i B =>
      forUp cols.toNat 0 (fun j B =>
        (count i j).bind fun chk => apply_rule A B rows cols i j chk) B) B).bind fun B =>
      (clear_loop A rows cols).bind fun A => some (A, B))
    = some (overwrite (fun _ _ => 0) A rows cols,
        overwrite (fun p q => next_cell (A p q) (c p q)) B rows cols) := by
  have h1 := fill_loops (fun p q => next_cell (A p q) (c p q))
    (fun i j S => (count i j).bind fun chk => apply_rule A S rows cols i j chk) rows cols
    (by
      intro i j S h
      simp only [hc i j h, Option.some_bind, apply_rule_eq A S rows cols i j _ h]) B
  have h2 : clear_loop A rows cols = some (overwrite (fun _ _ => 0) A rows cols) :=
    fill_loops (fun _ _ => 0) (fun i j S => store S rows cols i j 0) rows cols
      (by intro i j S h; simp only [store, h, if_true]) A
  rw [h1, Option.some_bind, h2, Option.some_bind]

theorem hedge_life_eq (A B : Grid) (rows cols : Int) :
    hedge_life A B rows cols = some (overwrite (fun _ _ => 0) A rows cols,
      overwrite (fun p q => next_cell (A p q) (sum9 (hedge_term A rows cols p q))) B rows cols) :=
  life_loops _ _ A B rows cols (fun i j _ => hedge_count_eq A rows cols i j)

theorem torus_life_eq (A B : Grid) (rows cols : Int) :
    torus_life A B rows cols = some (overwrite (fun _ _ => 0) A rows cols,
      overwrite (fun p q => next_cell (A p q) (sum9 (torus_term A rows cols p q))) B rows cols) :=
  life_loops _ _ A B rows cols (fun i j h => torus_count_eq A rows cols i j h)

theorem klein_life_eq (A B : Grid) (rows cols : Int) :
    klein_life A B rows cols = some (overwrite (fun _ _ => 0) A rows cols,
      overwrite (fun p q => next_cell (A p q) (sum9 (klein_term A rows cols p q))) B rows cols) :=
  life_loops _ _ A B rows cols (fun i j h => klein_count_eq A rows cols i j h)

theorem next_cell_rule (a n : Nat) :
    (next_cell a ((n : Int) + ind a) = 1 ↔ spec_rule a n) ∧
    (¬ spec_rule a n → next_cell a ((n : Int) + ind a) = 0) := by
  unfold next_cell ind spec_rule
  by_cases ha : a = 1
  · simp only [ha, if_true]
    split_ifs <;> constructor <;> first | omega | (simp; omega)
  · simp only [ha, if_false, add_zero]
    split_ifs <;> constructor <;> first | omega | (simp; omega)

theorem sum9_split (f : Int → Int → Int) (g : Int × Int → Bool)
    (h : ∀ x y, f x y = if g (x, y) then 1 else 0) :
    sum9 f = ((offsets8.countP g : Nat) : Int) + f 0 0 := by
  simp only [sum9, offsets8, List.countP_cons, List.countP_nil, h]
  push_cast
  ring

theorem hedge_sum (A : Grid) (rows cols i j : Int) (h : inGrid rows cols i j) :
    sum9 (hedge_term A rows cols i j) = (spec_bounded_n A rows cols i j : Int) + ind (A i j) := by
  have e := sum9_split (hedge_term A rows cols i j)
    (fun d => decide ((0 ≤ i + d.1 ∧ i + d.1 < rows ∧ 0 ≤ j + d.2 ∧ j + d.2 < cols) ∧
      A (i + d.1) (j + d.2) = 1))
    (by
      intro x y
      simp only [hedge_term, ind, inGrid, decide_eq_true_eq]
      split_ifs <;> first | rfl | (exfalso; tauto))
  have e0 : hedge_term A rows cols i j 0 0 = ind (A i j) := by
    simp only [hedge_term, add_zero, h, if_true]
  rw [e, e0]
  rfl

theorem wrapIdx_spec (k n : Int) (hn : 1 ≤ n) (hk : -1 ≤ k) (hkn : k ≤ n) :
    wrapIdx k n = spec_mod k n := by
  unfold wrapIdx spec_mod
  rw [Int.add_emod_self, Int.emod_emod_of_dvd _ (dvd_refl _)]
  by_cases h0 : k < 0
  · have hk1 : k = -1 := by omega
    subst hk1
    rw [if_pos h0]
    have e1 : (-1 : Int) % n = (-1 + n) % n := by rw [Int.add_emod_self]
    have e2 : (-1 + n) % n = -1 + n := Int.emod_eq_of_lt (by omega) (by omega)
    omega
  · rw [if_neg h0]
    by_cases h1 : n ≤ k
    · have : k = n := by omega
      subst this
      simp
    · have e2 : k % n = k := Int.emod_eq_of_lt (by omega) (by omega)
      rw [if_neg h1]
      omega

theorem torus_sum (A : Grid) (rows cols i j : Int) (h : inGrid rows cols i j) :
    sum9 (torus_term A rows cols i j) = (spec_torus_n A rows cols i j : Int) + ind (A i j) := by
  obtain ⟨h1, h2, h3, h4⟩ := h
  have e0 : torus_term A rows cols i j 0 0 = ind (A i j) := by
    simp only [torus_term, add_zero, wrapIdx]
    rw [if_neg (by omega), if_neg (by omega), if_neg (by omega), if_neg (by omega)]
  have hw : ∀ x y, -1 ≤ x → x ≤ 1 → -1 ≤ y → y ≤ 1 → torus_term A rows cols i j x y =
      if decide (A (spec_mod (i + x) rows) (spec_mod (j + y) cols) = 1) then 1 else 0 := by
    intro x y hx1 hx2 hy1 hy2
    simp only [torus_term, ind, decide_eq_true_eq]
    rw [wrapIdx_spec (i + x) rows (by omega) (by omega) (by omega),
      wrapIdx_spec (j + y) cols (by omega) (by omega) (by omega)]
  have e : sum9 (torus_term A rows cols i j)
      = (spec_torus_n A rows cols i j : Int) + torus_term A rows cols i j 0 0 := by
    simp only [sum9, spec_torus_n, offsets8, List.countP_cons, List.countP_nil]
    simp (disch := decide) only [hw]
    push_cast
    ring
  rw [e, e0]

theorem klein_cell_spec (rows cols i j x y : Int) (h : inGrid rows cols i j)
    (hx : -1 ≤ x ∧ x ≤ 1) (hy : -1 ≤ y ∧ y ≤ 1) :
    klein_cell rows cols i j x y = spec_klein_cell rows cols i j x y := by
  obtain ⟨h1, h2, h3, h4⟩ := h
  have hc : wrapIdx (j + y) cols = (j + y) % cols := by
    rw [wrapIdx_spec (j + y) cols (by omega) (by omega) (by omega)]
    unfold spec_mod
    rw [Int.add_emod_self, Int.emod_emod_of_dvd _ (dvd_refl _)]
  simp only [klein_cell, spec_klein_cell, hc]
  by_cases ha : i + x < 0
  · rw [if_pos ha, if_pos ha]
    congr 1
    ring
  · rw [if_neg ha, if_neg ha]
    by_cases hb : rows ≤ i + x
    · rw [if_pos hb, if_pos hb]
      have : i + x = rows := by omega
      rw [this]
      simp
      ring
    · rw [if_neg hb, if_neg hb]

theorem klein_sum (A : Grid) (rows cols i j : Int) (h : inGrid rows cols i j) :
    sum9 (klein_term A rows cols i j) = (spec_klein_n A rows cols i j : Int) + ind (A i j) := by
  have e0 : klein_term A rows cols i j 0 0 = ind (A i j) := by
    obtain ⟨h1, h2, h3, h4⟩ := h
    simp only [klein_term, klein_cell, add_zero, wrapIdx]
    rw [if_neg (by omega), if_neg (by omega), if_neg (by omega), if_neg (by omega)]
  have hw : ∀ x y, -1 ≤ x → x ≤ 1 → -1 ≤ y → y ≤ 1 → klein_term A rows cols i j x y =
      if decide (A (spec_klein_cell rows cols i j x y).1
        (spec_klein_cell rows cols i j x y).2 = 1) then 1 else 0 := by
    intro x y hx1 hx2 hy1 hy2
    simp only [klein_term, ind, decide_eq_true_eq]
    rw [klein_cell_spec rows cols i j x y h ⟨hx1, hx2⟩ ⟨hy1, hy2⟩]
  have e : sum9 (klein_term A rows cols i j)
      = (spec_klein_n A rows cols i j : Int) + klein_term A rows cols i j 0 0 := by
    simp only [sum9, spec_klein_n, offsets8, List.countP_cons, List.countP_nil]
    simp (disch := decide) only [hw]
    push_cast
    ring
  rw [e, e0]

theorem overwrite_in (new old : Grid) (rows cols i j : Int) (h : inGrid rows cols i j) :
    overwrite new old rows cols i j = new i j := by
  simp only [overwrite, h, if_true]

/-- C1. `hedge_life` implements Conway's rule with dead borders: for
`rows, cols ≥ 1` the call returns, and every in-range cell of `B` is then 1
exactly when the rule holds for the old `A[i][j]` and the number `n` of
non-zero offsets whose target is inside the grid and alive in the old `A`,
and is 0 otherwise. -/
theorem hedge_life_conway (A B : Grid) (rows cols : Int) (hr : 1 ≤ rows) (hc : 1 ≤ cols) :
    ∃ A' B', hedge_life A B rows cols = some (A', B') ∧
      ∀ i j, 0 ≤ i → i < rows → 0 ≤ j → j < cols →
        (B' i j = 1 ↔ spec_rule (A i j) (spec_bounded_n A rows cols i j)) ∧
        (¬ spec_rule (A i j) (spec_bounded_n A rows cols i j) → B' i j = 0) := by
  refine ⟨_, _, hedge_life_eq A B rows cols, ?_⟩
  intro i j h1 h2 h3 h4
  have h : inGrid rows cols i j := ⟨h1, h2, h3, h4⟩
  rw [overwrite_in _ _ _ _ _ _ h, hedge_sum A rows cols i j h]
  exact next_cell_rule _ _

/-- C2. `torus_life` implements Conway's rule on a torus: for `rows, cols ≥ 1`
the call returns and every in-range cell of `B` is then 1 exactly when the
rule holds for the old `A[i][j]` and the number `n` of non-zero offsets whose
target, wrapped by the mathematical modulus, is alive in the old `A`, and is 0
otherwise; and the pair the code computes with the truncating `%` and the
negative fix-up is that mathematical modulus for every in-range cell and every
offset in `{-1,0,1}²`. -/
theorem torus_life_conway (A B : Grid) (rows cols : Int) (hr : 1 ≤ rows) (hc : 1 ≤ cols) :
    (∃ A' B', torus_life A B rows cols = some (A', B') ∧
      ∀ i j, 0 ≤ i → i < rows → 0 ≤ j → j < cols →
        (B' i j = 1 ↔ spec_rule (A i j) (spec_torus_n A rows cols i j)) ∧
        (¬ spec_rule (A i j) (spec_torus_n A rows cols i j) → B' i j = 0)) ∧
    (∀ i j dx dy, 0 ≤ i → i < rows → 0 ≤ j → j < cols →
      -1 ≤ dx → dx ≤ 1 → -1 ≤ dy → dy ≤ 1 →
      torus_resolve rows cols i j dx dy
        = some (spec_mod (i + dx) rows, spec_mod (j + dy) cols)) := by
  constructor
  · refine ⟨_, _, torus_life_eq A B rows cols, ?_⟩
    intro i j h1 h2 h3 h4
    have h : inGrid rows cols i j := ⟨h1, h2, h3, h4⟩
    rw [overwrite_in _ _ _ _ _ _ h, torus_sum A rows cols i j h]
    exact next_cell_rule _ _
  · intro i j dx dy h1 h2 h3 h4 hx1 hx2 hy1 hy2
    rw [torus_resolve_eq rows cols i j dx dy ⟨h1, h2, h3, h4⟩ ⟨hx1, hx2⟩ ⟨hy1, hy2⟩,
      wrapIdx_spec (i + dx) rows hr (by omega) (by omega),
      wrapIdx_spec (j + dy) cols hc (by omega) (by omega)]

/-- C3. `klein_life` implements Conway's rule with the Klein resolver of the
specification: for `rows, cols ≥ 1` the call returns and every in-range cell
of `B` is then 1 exactly when the rule holds for the old `A[i][j]` and the
number `n` of non-zero offsets whose resolved cell is alive in the old `A`,
and is 0 otherwise; the pair the code computes is the resolved cell of the
specification; and for a cell `(0, j)` the offset `(-1, 0)` reads
`(rows - 1, cols - 1 - j)`. -/
theorem klein_life_conway (A B : Grid) (rows cols : Int) (hr : 1 ≤ rows) (hc : 1 ≤ cols) :
    (∃ A' B', klein_life A B rows cols = some (A', B') ∧
      ∀ i j, 0 ≤ i → i < rows → 0 ≤ j → j < cols →
        (B' i j = 1 ↔ spec_rule (A i j) (spec_klein_n A rows cols i j)) ∧
        (¬ spec_rule (A i j) (spec_klein_n A rows cols i j) → B' i j = 0)) ∧
    (∀ i j dx dy, 0 ≤ i → i < rows → 0 ≤ j → j < cols →
      -1 ≤ dx → dx ≤ 1 → -1 ≤ dy → dy ≤ 1 →
      klein_resolve rows cols i j dx dy = some (spec_klein_cell rows cols i j dx dy)) ∧
    (∀ j, 0 ≤ j → j < cols →
      klein_resolve rows cols 0 j (-1) 0 = some (rows - 1, cols - 1 - j)) := by
  refine ⟨?_, ?_, ?_⟩
  · refine ⟨_, _, klein_life_eq A B rows cols, ?_⟩
    intro i j h1 h2 h3 h4
    have h : inGrid rows cols i j := ⟨h1, h2, h3, h4⟩
    rw [overwrite_in _ _ _ _ _ _ h, klein_sum A rows cols i j h]
    exact next_cell_rule _ _
  · intro i j dx dy h1 h2 h3 h4 hx1 hx2 hy1 hy2
    rw [klein_resolve_eq rows cols i j dx dy ⟨h1, h2, h3, h4⟩ ⟨hx1, hx2⟩ ⟨hy1, hy2⟩,
      klein_cell_spec rows cols i j dx dy ⟨h1, h2, h3, h4⟩ ⟨hx1, hx2⟩ ⟨hy1, hy2⟩]
  · intro j h3 h4
    rw [klein_resolve_eq rows cols 0 j (-1) 0 ⟨le_refl _, by omega, h3, h4⟩
      ⟨by decide, by decide⟩ ⟨by decide, by decide⟩]
    simp only [klein_cell, wrapIdx, add_zero]
    rw [if_pos (by decide), if_neg (by omega), if_neg (by omega)]
    congr 2
    ring

/-- C4. Clearing postcondition: for `rows, cols ≥ 0` and any prior contents of
the two buffers, each of `hedge_life`, `torus_life` and `klein_life` returns
with every in-range cell of `A` equal to 0. -/
theorem life_clears_current (A B : Grid) (rows cols : Int) (hr : 0 ≤ rows) (hc : 0 ≤ cols) :
    (∃ A' B', hedge_life A B rows cols = some (A', B') ∧
      ∀ i j, 0 ≤ i → i < rows → 0 ≤ j → j < cols → A' i j = 0) ∧
    (∃ A' B', torus_life A B rows cols = some (A', B') ∧
      ∀ i j, 0 ≤ i → i < rows → 0 ≤ j → j < cols → A' i j = 0) ∧
    (∃ A' B', klein_life A B rows cols = some (A', B') ∧
      ∀ i j, 0 ≤ i → i < rows → 0 ≤ j → j < cols → A' i j = 0) := by
  refine ⟨⟨_, _, hedge_life_eq A B rows cols, ?_⟩, ⟨_, _, torus_life_eq A B rows cols, ?_⟩,
    ⟨_, _, klein_life_eq A B rows cols, ?_⟩⟩ <;>
  · intro i j h1 h2 h3 h4
    exact overwrite_in _ _ _ _ _ _ ⟨h1, h2, h3, h4⟩

/-- C5. The next generation is determined by the current one: each of the
three life functions, run from the same `A` with two different prior contents
`B1`, `B2` of the output buffer, returns in both runs and leaves the same value
in every in-range cell of the output buffer. -/
theorem life_output_determined (A B1 B2 : Grid) (rows cols : Int) :
    (∃ A1 C1 A2 C2, hedge_life A B1 rows cols = some (A1, C1) ∧
      hedge_life A B2 rows cols = some (A2, C2) ∧
      ∀ i j, 0 ≤ i → i < rows → 0 ≤ j → j < cols → C1 i j = C2 i j) ∧
    (∃ A1 C1 A2 C2, torus_life A B1 rows cols = some (A1, C1) ∧
      torus_life A B2 rows cols = some (A2, C2) ∧
      ∀ i j, 0 ≤ i → i < rows → 0 ≤ j → j < cols → C1 i j = C2 i j) ∧
    (∃ A1 C1 A2 C2, klein_life A B1 rows cols = some (A1, C1) ∧
      klein_life A B2 rows cols = some (A2, C2) ∧
      ∀ i j, 0 ≤ i → i < rows → 0 ≤ j → j < cols → C1 i j = C2 i j) := by
  refine ⟨⟨_, _, _, _, hedge_life_eq A B1 rows cols, hedge_life_eq A B2 rows cols, ?_⟩,
    ⟨_, _, _, _, torus_life_eq A B1 rows cols, torus_life_eq A B2 rows cols, ?_⟩,
    ⟨_, _, _, _, klein_life_eq A B1 rows cols, klein_life_eq A B2 rows cols, ?_⟩⟩ <;>
  · intro i j h1 h2 h3 h4
    rw [overwrite_in _ _ _ _ _ _ ⟨h1, h2, h3, h4⟩, overwrite_in _ _ _ _ _ _ ⟨h1, h2, h3, h4⟩]

theorem ind_of_ne (v : Nat) (h : v ≠ 1) : ind v = 0 := by
  simp only [ind, h, if_false]

/-- When no alive cell lies on the outermost ring of the grid, the three
neighbour scans read the same value at every offset. -/
theorem terms_agree (A : Grid) (rows cols : Int)
    (hA : ∀ p q, inGrid rows cols p q → A p q = 1 →
      1 ≤ p ∧ p ≤ rows - 2 ∧ 1 ≤ q ∧ q ≤ cols - 2)
    (i j x y : Int) (h : inGrid rows cols i j) (hx : -1 ≤ x ∧ x ≤ 1) (hy : -1 ≤ y ∧ y ≤ 1) :
    torus_term A rows cols i j x y = hedge_term A rows cols i j x y ∧
    klein_term A rows cols i j x y = hedge_term A rows cols i j x y := by
  obtain ⟨h1, h2, h3, h4⟩ := h
  have hwr := wrapIdx_range (i + x) rows (by omega) (by omega)
  have hwc := wrapIdx_range (j + y) cols (by omega) (by omega)
  have hk := klein_cell_range rows cols i j x y ⟨h1, h2, h3, h4⟩ hx hy
  by_cases hin : inGrid rows cols (i + x) (j + y)
  · obtain ⟨g1, g2, g3, g4⟩ := hin
    have er : wrapIdx (i + x) rows = i + x := by
      unfold wrapIdx; rw [if_neg (by omega), if_neg (by omega)]
    have ec : wrapIdx (j + y) cols = j + y := by
      unfold wrapIdx; rw [if_neg (by omega), if_neg (by omega)]
    have ek : klein_cell rows cols i j x y = (i + x, j + y) := by
      unfold klein_cell; rw [if_neg (by omega), if_neg (by omega), ec]
    simp only [torus_term, klein_term, hedge_term, er, ec, ek]
    rw [if_pos ⟨g1, g2, g3, g4⟩]
    exact ⟨rfl, rfl⟩
  · have e0 : hedge_term A rows cols i j x y = 0 := by
      simp only [hedge_term, hin, if_false]
    rw [e0]
    constructor
    · apply ind_of_ne
      intro ha
      have := hA _ _ ⟨hwr.1, hwr.2, hwc.1, hwc.2⟩ ha
      unfold wrapIdx at this
      unfold inGrid at hin
      split_ifs at this <;> omega
    · apply ind_of_ne
      intro ha
      have := hA _ _ hk ha
      unfold klein_cell wrapIdx at this
      unfold inGrid at hin
      split_ifs at this <;> simp only at this <;> omega

theorem sum9_congr (f g : Int → Int → Int)
    (h : ∀ x y, -1 ≤ x ∧ x ≤ 1 → -1 ≤ y ∧ y ≤ 1 → f x y = g x y) : sum9 f = sum9 g := by
  simp only [sum9]
  rw [h (-1) (-1) (by decide) (by decide), h (-1) 0 (by decide) (by decide),
    h (-1) 1 (by decide) (by decide), h 0 (-1) (by decide) (by decide),
    h 0 0 (by decide) (by decide), h 0 1 (by decide) (by decide),
    h 1 (-1) (by decide) (by decide), h 1 0 (by decide) (by decide),
    h 1 1 (by decide) (by decide)]

theorem overwrite_congr (f g old : Grid) (rows cols : Int)
    (h : ∀ i j, inGrid rows cols i j → f i j = g i j) :
    overwrite f old rows cols = overwrite g old rows cols := by
  funext p q
  simp only [overwrite]
  by_cases hin : inGrid rows cols p q
  · rw [if_pos hin, if_pos hin, h p q hin]
  · rw [if_neg hin, if_neg hin]

/-- With no alive cell on the outermost ring, `torus_life` and `klein_life`
return exactly what `hedge_life` returns. -/
theorem life_agree (A B : Grid) (rows cols : Int)
    (hA : ∀ p q, inGrid rows cols p q → A p q = 1 →
      1 ≤ p ∧ p ≤ rows - 2 ∧ 1 ≤ q ∧ q ≤ cols - 2) :
    torus_life A B rows cols = hedge_life A B rows cols ∧
    klein_life A B rows cols = hedge_life A B rows cols := by
  rw [hedge_life_eq, torus_life_eq, klein_life_eq]
  constructor
  · congr 2
    apply overwrite_congr
    intro i j h
    congr 1
    exact sum9_congr _ _ (fun x y hx hy => (terms_agree A rows cols hA i j x y h hx hy).1)
  · congr 2
    apply overwrite_congr
    intro i j h
    congr 1
    exact sum9_congr _ _ (fun x y hx hy => (terms_agree A rows cols hA i j x y h hx hy).2)

/-- C6. Topology agreement away from the edges: if every alive cell `(i, j)`
of `A` has `2 ≤ i ≤ rows - 3` and `2 ≤ j ≤ cols - 3`, the three life functions
return, and return the same next grid `B` (and the same cleared `A`). -/
theorem topologies_agree_inside (A B : Grid) (rows cols : Int)
    (hA : ∀ i j, 0 ≤ i → i < rows → 0 ≤ j → j < cols → A i j = 1 →
      2 ≤ i ∧ i ≤ rows - 3 ∧ 2 ≤ j ∧ j ≤ cols - 3) :
    ∃ A' B', hedge_life A B rows cols = some (A', B') ∧
      torus_life A B rows cols = some (A', B') ∧
      klein_life A B rows cols = some (A', B') := by
  have hA1 : ∀ p q, inGrid rows cols p q → A p q = 1 →
      1 ≤ p ∧ p ≤ rows - 2 ∧ 1 ≤ q ∧ q ≤ cols - 2 := by
    intro p q hin ha
    have := hA p q hin.1 hin.2.1 hin.2.2.1 hin.2.2.2 ha
    omega
  obtain ⟨ht, hk⟩ := life_agree A B rows cols hA1
  exact ⟨_, _, hedge_life_eq A B rows cols, ht.trans (hedge_life_eq A B rows cols),
    hk.trans (hedge_life_eq A B rows cols)⟩

theorem next_cell_alive (a : Nat) (P : Prop) [Decidable P] (h : a = 1 ↔ P) (chk : Int) :
    next_cell a chk = next_cell (if P then 1 else 0) chk := by
  unfold next_cell
  by_cases hp : P
  · simp only [hp, h.2 hp, if_true]
  · have : a ≠ 1 := fun e => hp (h.1 e)
    simp only [hp, this, if_false, zero_ne_one]

theorem pattern_life (A B : Grid) (rows cols : Int) (L : List (Int × Int))
    (hL : ∀ p q, (p, q) ∈ L → 1 ≤ p ∧ p ≤ rows - 2 ∧ 1 ≤ q ∧ q ≤ cols - 2)
    (hA : ∀ i j, 0 ≤ i → i < rows → 0 ≤ j → j < cols → (A i j = 1 ↔ (i, j) ∈ L)) :
    ∃ A' B', hedge_life A B rows cols = some (A', B') ∧
      torus_life A B rows cols = some (A', B') ∧
      klein_life A B rows cols = some (A', B') ∧
      (∀ i j, 0 ≤ i → i < rows → 0 ≤ j → j < cols → A' i j = 0) ∧
      (∀ i j, ¬ inGrid rows cols i j → A' i j = A i j ∧ B' i j = B i j) ∧
      ∀ i j, 0 ≤ i → i < rows → 0 ≤ j → j < cols →
        B' i j = next_cell (if (i, j) ∈ L then 1 else 0)
          (sum9 (fun x y => if (i + x, j + y) ∈ L then 1 else 0)) := by
  have hA1 : ∀ p q, inGrid rows cols p q → A p q = 1 →
      1 ≤ p ∧ p ≤ rows - 2 ∧ 1 ≤ q ∧ q ≤ cols - 2 := by
    intro p q hin ha
    exact hL p q ((hA p q hin.1 hin.2.1 hin.2.2.1 hin.2.2.2).1 ha)
  obtain ⟨ht, hk⟩ := life_agree A B rows cols hA1
  refine ⟨_, _, hedge_life_eq A B rows cols, ht.trans (hedge_life_eq A B rows cols),
    hk.trans (hedge_life_eq A B rows cols), ?_, ?_, ?_⟩
  · intro i j h1 h2 h3 h4
    exact overwrite_in _ _ _ _ _ _ ⟨h1, h2, h3, h4⟩
  · intro i j h
    simp only [overwrite, h, if_false, and_self]
  · intro i j h1 h2 h3 h4
    rw [overwrite_in _ _ _ _ _ _ ⟨h1, h2, h3, h4⟩,
      next_cell_alive (A i j) _ (hA i j h1 h2 h3 h4)]
    congr 1
    apply sum9_congr
    intro x y _ _
    unfold hedge_term
    by_cases hin : inGrid rows cols (i + x) (j + y)
    · rw [if_pos hin]
      by_cases hm : (i + x, j + y) ∈ L
      · rw [if_pos hm]
        simp only [ind, (hA _ _ hin.1 hin.2.1 hin.2.2.1 hin.2.2.2).2 hm, if_true]
      · rw [if_neg hm]
        exact ind_of_ne _ (fun e => hm ((hA _ _ hin.1 hin.2.1 hin.2.2.1 hin.2.2.2).1 e))
    · rw [if_neg hin, if_neg]
      intro hm
      have := hL _ _ hm
      exact hin ⟨by omega, by omega, by omega, by omega⟩

theorem block_rule (r c i j : Int) :
    next_cell (if (i, j) ∈ block_cells r c then 1 else 0)
      (sum9 (fun x y => if (i + x, j + y) ∈ block_cells r c then 1 else 0))
    = if (i, j) ∈ block_cells r c then 1 else 0 := by
  simp only [block_cells, List.mem_cons, Prod.mk.injEq, List.mem_nil_iff, or_false, sum9,
    next_cell, add_zero]
  have hi : i ≤ r - 2 ∨ i = r - 1 ∨ i = r ∨ i = r + 1 ∨ i = r + 2 ∨ r + 3 ≤ i := by omega
  have hj : j ≤ c - 2 ∨ j = c - 1 ∨ j = c ∨ j = c + 1 ∨ j = c + 2 ∨ c + 3 ≤ j := by omega
  rcases hi with hi | hi | hi | hi | hi | hi <;>
  rcases hj with hj | hj | hj | hj | hj | hj <;>
  simp (disch := omega) only [if_pos, if_neg] <;> rfl

theorem blinker_h_rule (r c i j : Int) :
    next_cell (if (i, j) ∈ blinker_h r c then 1 else 0)
      (sum9 (fun x y => if (i + x, j + y) ∈ blinker_h r c then 1 else 0))
    = if (i, j) ∈ blinker_v r c then 1 else 0 := by
  simp only [blinker_h, blinker_v, List.mem_cons, Prod.mk.injEq, List.mem_nil_iff, or_false,
    sum9, next_cell, add_zero]
  have hi : i ≤ r - 2 ∨ i = r - 1 ∨ i = r ∨ i = r + 1 ∨ r + 2 ≤ i := by omega
  have hj : j ≤ c - 3 ∨ j = c - 2 ∨ j = c - 1 ∨ j = c ∨ j = c + 1 ∨ j = c + 2 ∨ c + 3 ≤ j := by
    omega
  rcases hi with hi | hi | hi | hi | hi <;>
  rcases hj with hj | hj | hj | hj | hj | hj | hj <;>
  simp (disch := omega) only [if_pos, if_neg] <;> rfl

theorem blinker_v_rule (r c i j : Int) :
    next_cell (if (i, j) ∈ blinker_v r c then 1 else 0)
      (sum9 (fun x y => if (i + x, j + y) ∈ blinker_v r c then 1 else 0))
    = if (i, j) ∈ blinker_h r c then 1 else 0 := by
  simp only [blinker_h, blinker_v, List.mem_cons, Prod.mk.injEq, List.mem_nil_iff, or_false,
    sum9, next_cell, add_zero]
  have hi : i ≤ r - 3 ∨ i = r - 2 ∨ i = r - 1 ∨ i = r ∨ i = r + 1 ∨ i = r + 2 ∨ r + 3 ≤ i := by
    omega
  have hj : j ≤ c - 2 ∨ j = c - 1 ∨ j = c ∨ j = c + 1 ∨ c + 2 ≤ j := by omega
  rcases hi with hi | hi | hi | hi | hi | hi | hi <;>
  rcases hj with hj | hj | hj | hj | hj <;>
  simp (disch := omega) only [if_pos, if_neg] <;> rfl

theorem lone_rule (r c i j : Int) :
    next_cell (if (i, j) ∈ [(r, c)] then 1 else 0)
      (sum9 (fun x y => if (i + x, j + y) ∈ [(r, c)] then 1 else 0)) = 0 := by
  simp only [List.mem_cons, Prod.mk.injEq, List.mem_nil_iff, or_false, sum9, next_cell,
    add_zero]
  have hi : i ≤ r - 2 ∨ i = r - 1 ∨ i = r ∨ i = r + 1 ∨ r + 2 ≤ i := by omega
  have hj : j ≤ c - 2 ∨ j = c - 1 ∨ j = c ∨ j = c + 1 ∨ c + 2 ≤ j := by omega
  rcases hi with hi | hi | hi | hi | hi <;>
  rcases hj with hj | hj | hj | hj | hj <;>
  simp (disch := omega) only [if_pos, if_neg] <;> rfl

theorem gridOf_alive (L : List (Int × Int)) (i j : Int) :
    gridOf L i j = 1 ↔ (i, j) ∈ L := by
  unfold gridOf
  by_cases h : (i, j) ∈ L
  · simp only [h, if_true]
  · simp only [h, if_false, zero_ne_one]

/-- Instance of C1 on the 4×4 grid holding a block. -/
theorem hedge_life_conway_witness :
    (1 : Int) ≤ 4 ∧ (1 : Int) ≤ 4 ∧
    ∃ A' B', hedge_life (gridOf (block_cells 1 1)) (gridOf []) 4 4 = some (A', B') ∧
      ∀ i j, 0 ≤ i → i < 4 → 0 ≤ j → j < 4 →
        (B' i j = 1 ↔ spec_rule (gridOf (block_cells 1 1) i j)
          (spec_bounded_n (gridOf (block_cells 1 1)) 4 4 i j)) ∧
        (¬ spec_rule (gridOf (block_cells 1 1) i j)
          (spec_bounded_n (gridOf (block_cells 1 1)) 4 4 i j) → B' i j = 0) :=
  ⟨by decide, by decide,
    hedge_life_conway (gridOf (block_cells 1 1)) (gridOf []) 4 4 (by decide) (by decide)⟩

/-- Instance of C2 on the 1×1 torus with its cell alive. -/
theorem torus_life_conway_witness :
    (1 : Int) ≤ 1 ∧
    (∃ A' B', torus_life (gridOf [(0, 0)]) (gridOf []) 1 1 = some (A', B') ∧
      ∀ i j, 0 ≤ i → i < 1 → 0 ≤ j → j < 1 →
        (B' i j = 1 ↔ spec_rule (gridOf [(0, 0)] i j)
          (spec_torus_n (gridOf [(0, 0)]) 1 1 i j)) ∧
        (¬ spec_rule (gridOf [(0, 0)] i j)
          (spec_torus_n (gridOf [(0, 0)]) 1 1 i j) → B' i j = 0)) ∧
    (∀ i j dx dy, 0 ≤ i → i < 1 → 0 ≤ j → j < 1 →
      -1 ≤ dx → dx ≤ 1 → -1 ≤ dy → dy ≤ 1 →
      torus_resolve 1 1 i j dx dy = some (spec_mod (i + dx) 1, spec_mod (j + dy) 1)) :=
  ⟨by decide, torus_life_conway (gridOf [(0, 0)]) (gridOf []) 1 1 (by decide) (by decide)⟩

/-- Instance of C3 on a 3×4 grid with one alive cell in the top row. -/
theorem klein_life_conway_witness :
    (1 : Int) ≤ 3 ∧ (1 : Int) ≤ 4 ∧
    (∃ A' B', klein_life (gridOf [(0, 1)]) (gridOf []) 3 4 = some (A', B') ∧
      ∀ i j, 0 ≤ i → i < 3 → 0 ≤ j → j < 4 →
        (B' i j = 1 ↔ spec_rule (gridOf [(0, 1)] i j)
          (spec_klein_n (gridOf [(0, 1)]) 3 4 i j)) ∧
        (¬ spec_rule (gridOf [(0, 1)] i j)
          (spec_klein_n (gridOf [(0, 1)]) 3 4 i j) → B' i j = 0)) ∧
    (∀ i j dx dy, 0 ≤ i → i < 3 → 0 ≤ j → j < 4 →
      -1 ≤ dx → dx ≤ 1 → -1 ≤ dy → dy ≤ 1 →
      klein_resolve 3 4 i j dx dy = some (spec_klein_cell 3 4 i j dx dy)) ∧
    (∀ j, 0 ≤ j → j < 4 → klein_resolve 3 4 0 j (-1) 0 = some (3 - 1, 4 - 1 - j)) :=
  ⟨by decide, by decide,
    klein_life_conway (gridOf [(0, 1)]) (gridOf []) 3 4 (by decide) (by decide)⟩

/-- Instance of C4 on a 2×3 grid, both buffers holding alive cells. -/
theorem life_clears_current_witness :
    (0 : Int) ≤ 2 ∧ (0 : Int) ≤ 3 ∧
    (∃ A' B', hedge_life (gridOf [(0, 0), (1, 2)]) (gridOf [(1, 1)]) 2 3 = some (A', B') ∧
      ∀ i j, 0 ≤ i → i < 2 → 0 ≤ j → j < 3 → A' i j = 0) ∧
    (∃ A' B', torus_life (gridOf [(0, 0), (1, 2)]) (gridOf [(1, 1)]) 2 3 = some (A', B') ∧
      ∀ i j, 0 ≤ i → i < 2 → 0 ≤ j → j < 3 → A' i j = 0) ∧
    (∃ A' B', klein_life (gridOf [(0, 0), (1, 2)]) (gridOf [(1, 1)]) 2 3 = some (A', B') ∧
      ∀ i j, 0 ≤ i → i < 2 → 0 ≤ j → j < 3 → A' i j = 0) :=
  ⟨by decide, by decide,
    life_clears_current (gridOf [(0, 0), (1, 2)]) (gridOf [(1, 1)]) 2 3 (by decide) (by decide)⟩

/-- Instance of C6 on the 5×5 grid whose only alive cell is the centre. -/
theorem topologies_agree_inside_witness :
    ∃ A' B', hedge_life (gridOf [(2, 2)]) (gridOf []) 5 5 = some (A', B') ∧
      torus_life (gridOf [(2, 2)]) (gridOf []) 5 5 = some (A', B') ∧
      klein_life (gridOf [(2, 2)]) (gridOf []) 5 5 = some (A', B') :=
  topologies_agree_inside (gridOf [(2, 2)]) (gridOf []) 5 5
    (fun i j _ _ _ _ ha => by
      rw [gridOf_alive] at ha
      simp only [List.mem_cons, Prod.mk.injEq, List.mem_nil_iff, or_false] at ha
      omega)

/-- C7. Block still life: when the alive cells of `A` are exactly the four of a
2×2 block with one free cell on every side, the three life functions return
the same pair, and the next grid holds 1 at the four block cells and 0 at every
other in-range cell; it equals the original `A` at every cell where `A` holds
0 or 1. -/
theorem block_still_life (A B : Grid) (rows cols r c : Int)
    (hr1 : 1 ≤ r) (hr2 : r + 1 ≤ rows - 2) (hc1 : 1 ≤ c) (hc2 : c + 1 ≤ cols - 2)
    (hA : ∀ i j, 0 ≤ i → i < rows → 0 ≤ j → j < cols →
      (A i j = 1 ↔ (i, j) ∈ block_cells r c)) :
    ∃ A' B', hedge_life A B rows cols = some (A', B') ∧
      torus_life A B rows cols = some (A', B') ∧
      klein_life A B rows cols = some (A', B') ∧
      ∀ i j, 0 ≤ i → i < rows → 0 ≤ j → j < cols →
        B' i j = (if (i, j) ∈ block_cells r c then 1 else 0) ∧
        (B' i j = 1 ↔ A i j = 1) ∧ (A i j ≤ 1 → B' i j = A i j) := by
  have hL : ∀ p q, (p, q) ∈ block_cells r c →
      1 ≤ p ∧ p ≤ rows - 2 ∧ 1 ≤ q ∧ q ≤ cols - 2 := by
    intro p q hm
    simp only [block_cells, List.mem_cons, Prod.mk.injEq, List.mem_nil_iff, or_false] at hm
    omega
  obtain ⟨A', B', e1, e2, e3, -, -, hB⟩ := pattern_life A B rows cols (block_cells r c) hL hA
  refine ⟨A', B', e1, e2, e3, ?_⟩
  intro i j h1 h2 h3 h4
  have hb := hB i j h1 h2 h3 h4
  rw [block_rule] at hb
  have ha := hA i j h1 h2 h3 h4
  by_cases hm : (i, j) ∈ block_cells r c
  · rw [if_pos hm] at hb
    rw [if_pos hm]
    exact ⟨hb, ⟨fun _ => ha.2 hm, fun _ => hb⟩, fun _ => hb.trans (ha.2 hm).symm⟩
  · rw [if_neg hm] at hb
    rw [if_neg hm]
    have hne : A i j ≠ 1 := fun e => hm (ha.1 e)
    refine ⟨hb, ⟨fun e => ?_, fun e => absurd e hne⟩, fun hle => ?_⟩
    · rw [hb] at e; exact absurd e (by decide)
    · rw [hb]; omega

/-- Instance of C7: the block at `(1, 1)` on the 4×4 grid. -/
theorem block_still_life_witness :
    ∃ A' B', hedge_life (gridOf (block_cells 1 1)) (gridOf []) 4 4 = some (A', B') ∧
      torus_life (gridOf (block_cells 1 1)) (gridOf []) 4 4 = some (A', B') ∧
      klein_life (gridOf (block_cells 1 1)) (gridOf []) 4 4 = some (A', B') ∧
      ∀ i j, 0 ≤ i → i < 4 → 0 ≤ j → j < 4 →
        B' i j = (if (i, j) ∈ block_cells 1 1 then 1 else 0) ∧
        (B' i j = 1 ↔ gridOf (block_cells 1 1) i j = 1) ∧
        (gridOf (block_cells 1 1) i j ≤ 1 → B' i j = gridOf (block_cells 1 1) i j) :=
  block_still_life (gridOf (block_cells 1 1)) (gridOf []) 4 4 1 1
    (by decide) (by decide) (by decide) (by decide)
    (fun i j _ _ _ _ => gridOf_alive (block_cells 1 1) i j)

/-- C8. Blinker oscillation with period 2: for a centre `(r, c)` with
`2 ≤ r ≤ rows - 3`, `2 ≤ c ≤ cols - 3`, a grid `A` whose alive cells are exactly
the horizontal blinker and any `B`, the three life functions return the same
pair `(A1, B1)` from `(A, B)`, with `B1` holding 1 exactly at the vertical
blinker and 0 elsewhere in range; and the following call on `(B1, A1)` returns
the same pair `(B2, A2)` for the three functions, with `A2` holding 1 exactly
at the horizontal blinker and 0 elsewhere in range. -/
theorem blinker_period_two (A B : Grid) (rows cols r c : Int)
    (hr1 : 2 ≤ r) (hr2 : r ≤ rows - 3) (hc1 : 2 ≤ c) (hc2 : c ≤ cols - 3)
    (hA : ∀ i j, 0 ≤ i → i < rows → 0 ≤ j → j < cols →
      (A i j = 1 ↔ (i, j) ∈ blinker_h r c)) :
    ∃ A1 B1 A2 B2,
      hedge_life A B rows cols = some (A1, B1) ∧
      torus_life A B rows cols = some (A1, B1) ∧
      klein_life A B rows cols = some (A1, B1) ∧
      (∀ i j, 0 ≤ i → i < rows → 0 ≤ j → j < cols →
        B1 i j = if (i, j) ∈ blinker_v r c then 1 else 0) ∧
      hedge_life B1 A1 rows cols = some (B2, A2) ∧
      torus_life B1 A1 rows cols = some (B2, A2) ∧
      klein_life B1 A1 rows cols = some (B2, A2) ∧
      (∀ i j, 0 ≤ i → i < rows → 0 ≤ j → j < cols →
        A2 i j = if (i, j) ∈ blinker_h r c then 1 else 0) := by
  have hLh : ∀ p q, (p, q) ∈ blinker_h r c →
      1 ≤ p ∧ p ≤ rows - 2 ∧ 1 ≤ q ∧ q ≤ cols - 2 := by
    intro p q hm
    simp only [blinker_h, List.mem_cons, Prod.mk.injEq, List.mem_nil_iff, or_false] at hm
    omega
  have hLv : ∀ p q, (p, q) ∈ blinker_v r c →
      1 ≤ p ∧ p ≤ rows - 2 ∧ 1 ≤ q ∧ q ≤ cols - 2 := by
    intro p q hm
    simp only [blinker_v, List.mem_cons, Prod.mk.injEq, List.mem_nil_iff, or_false] at hm
    omega
  obtain ⟨A1, B1, e1, e2, e3, -, -, hB⟩ := pattern_life A B rows cols (blinker_h r c) hLh hA
  have hB1 : ∀ i j, 0 ≤ i → i < rows → 0 ≤ j → j < cols →
      B1 i j = if (i, j) ∈ blinker_v r c then 1 else 0 := by
    intro i j h1 h2 h3 h4
    rw [hB i j h1 h2 h3 h4, blinker_h_rule]
  have hB1' : ∀ i j, 0 ≤ i → i < rows → 0 ≤ j → j < cols →
      (B1 i j = 1 ↔ (i, j) ∈ blinker_v r c) := by
    intro i j h1 h2 h3 h4
    rw [hB1 i j h1 h2 h3 h4]
    by_cases hm : (i, j) ∈ blinker_v r c
    · simp only [hm, if_true]
    · simp only [hm, if_false, zero_ne_one]
  obtain ⟨B2, A2, f1, f2, f3, -, -, hA2⟩ :=
    pattern_life B1 A1 rows cols (blinker_v r c) hLv hB1'
  refine ⟨A1, B1, A2, B2, e1, e2, e3, hB1, f1, f2, f3, ?_⟩
  intro i j h1 h2 h3 h4
  rw [hA2 i j h1 h2 h3 h4, blinker_v_rule]

/-- Instance of C8: the blinker centred at `(2, 2)` on the 5×5 grid, the
output buffer holding an alive cell beforehand. -/
theorem blinker_period_two_witness :
    ∃ A1 B1 A2 B2,
      hedge_life (gridOf (blinker_h 2 2)) (gridOf [(0, 0)]) 5 5 = some (A1, B1) ∧
      torus_life (gridOf (blinker_h 2 2)) (gridOf [(0, 0)]) 5 5 = some (A1, B1) ∧
      klein_life (gridOf (blinker_h 2 2)) (gridOf [(0, 0)]) 5 5 = some (A1, B1) ∧
      (∀ i j, 0 ≤ i → i < 5 → 0 ≤ j → j < 5 →
        B1 i j = if (i, j) ∈ blinker_v 2 2 then 1 else 0) ∧
      hedge_life B1 A1 5 5 = some (B2, A2) ∧
      torus_life B1 A1 5 5 = some (B2, A2) ∧
      klein_life B1 A1 5 5 = some (B2, A2) ∧
      (∀ i j, 0 ≤ i → i < 5 → 0 ≤ j → j < 5 →
        A2 i j = if (i, j) ∈ blinker_h 2 2 then 1 else 0) :=
  blinker_period_two (gridOf (blinker_h 2 2)) (gridOf [(0, 0)]) 5 5 2 2
    (by decide) (by decide) (by decide) (by decide)
    (fun i j _ _ _ _ => gridOf_alive (blinker_h 2 2) i j)

/-- C9. A lone cell dies and causes no birth: when `(r, c)`, with
`1 ≤ r ≤ rows - 2` and `1 ≤ c ≤ cols - 2`, is the only alive cell of `A`, the
three life functions return the same pair and every in-range cell of the next
grid is 0. -/
theorem lone_cell_dies (A B : Grid) (rows cols r c : Int)
    (hr1 : 1 ≤ r) (hr2 : r ≤ rows - 2) (hc1 : 1 ≤ c) (hc2 : c ≤ cols - 2)
    (hA : ∀ i j, 0 ≤ i → i < rows → 0 ≤ j → j < cols → (A i j = 1 ↔ (i = r ∧ j = c))) :
    ∃ A' B', hedge_life A B rows cols = some (A', B') ∧
      torus_life A B rows cols = some (A', B') ∧
      klein_life A B rows cols = some (A', B') ∧
      ∀ i j, 0 ≤ i → i < rows → 0 ≤ j → j < cols → B' i j = 0 := by
  have hL : ∀ p q, (p, q) ∈ [(r, c)] → 1 ≤ p ∧ p ≤ rows - 2 ∧ 1 ≤ q ∧ q ≤ cols - 2 := by
    intro p q hm
    simp only [List.mem_cons, Prod.mk.injEq, List.mem_nil_iff, or_false] at hm
    omega
  have hA' : ∀ i j, 0 ≤ i → i < rows → 0 ≤ j → j < cols → (A i j = 1 ↔ (i, j) ∈ [(r, c)]) := by
    intro i j h1 h2 h3 h4
    rw [hA i j h1 h2 h3 h4]
    simp only [List.mem_cons, Prod.mk.injEq, List.mem_nil_iff, or_false]
  obtain ⟨A', B', e1, e2, e3, -, -, hB⟩ := pattern_life A B rows cols [(r, c)] hL hA'
  refine ⟨A', B', e1, e2, e3, ?_⟩
  intro i j h1 h2 h3 h4
  rw [hB i j h1 h2 h3 h4, lone_rule]

/-- Instance of C9: the centre cell of the 3×3 grid. -/
theorem lone_cell_dies_witness :
    ∃ A' B', hedge_life (gridOf [(1, 1)]) (gridOf [(0, 0)]) 3 3 = some (A', B') ∧
      torus_life (gridOf [(1, 1)]) (gridOf [(0, 0)]) 3 3 = some (A', B') ∧
      klein_life (gridOf [(1, 1)]) (gridOf [(0, 0)]) 3 3 = some (A', B') ∧
      ∀ i j, 0 ≤ i → i < 3 → 0 ≤ j → j < 3 → B' i j = 0 :=
  lone_cell_dies (gridOf [(1, 1)]) (gridOf [(0, 0)]) 3 3 1 1
    (by decide) (by decide) (by decide) (by decide)
    (fun i j _ _ _ _ => by
      rw [gridOf_alive]
      simp only [List.mem_cons, Prod.mk.injEq, List.mem_nil_iff, or_false])

theorem chk_eq (count : Option Int) (s : Int) (A : Grid) (rows cols i j : Int)
    (hc : count = some s) (h : inGrid rows cols i j) :
    (count.bind fun chk =>
      (load A rows cols i j).bind fun a => some (if a = 1 then chk - 1 else chk))
    = some (s - ind (A i j)) := by
  simp only [hc, Option.some_bind, load, h, if_true, ind]
  split_ifs <;> simp

theorem sum9_off_centre (f g : Int → Int → Int)
    (h : ∀ x y, -1 ≤ x ∧ x ≤ 1 → -1 ≤ y ∧ y ≤ 1 → (x ≠ 0 ∨ y ≠ 0) → f x y = g x y) :
    sum9 f - f 0 0 = sum9 g - g 0 0 := by
  simp only [sum9]
  rw [h (-1) (-1) (by decide) (by decide) (by decide),
    h (-1) 0 (by decide) (by decide) (by decide),
    h (-1) 1 (by decide) (by decide) (by decide),
    h 0 (-1) (by decide) (by decide) (by decide),
    h 0 1 (by decide) (by decide) (by decide),
    h 1 (-1) (by decide) (by decide) (by decide),
    h 1 0 (by decide) (by decide) (by decide),
    h 1 1 (by decide) (by decide) (by decide)]
  ring

theorem hedge_centre (A : Grid) (rows cols i j : Int) (h : inGrid rows cols i j) :
    hedge_term A rows cols i j 0 0 = ind (A i j) := by
  simp only [hedge_term, add_zero, h, if_true]

theorem torus_centre (A : Grid) (rows cols i j : Int) (h : inGrid rows cols i j) :
    torus_term A rows cols i j 0 0 = ind (A i j) := by
  obtain ⟨h1, h2, h3, h4⟩ := h
  simp only [torus_term, add_zero, wrapIdx]
  rw [if_neg (by omega), if_neg (by omega), if_neg (by omega), if_neg (by omega)]

theorem klein_centre (A : Grid) (rows cols i j : Int) (h : inGrid rows cols i j) :
    klein_term A rows cols i j 0 0 = ind (A i j) := by
  obtain ⟨h1, h2, h3, h4⟩ := h
  simp only [klein_term, klein_cell, add_zero, wrapIdx]
  rw [if_neg (by omega), if_neg (by omega), if_neg (by omega), if_neg (by omega)]

theorem next_cell_of_chk (a : Nat) (s : Int) :
    next_cell a s = if a = 1 then
        (if s - ind a < 2 then 0 else if s - ind a > 3 then 0 else 1)
      else (if s - ind a = 3 then 1 else 0) := by
  unfold next_cell ind
  by_cases ha : a = 1
  · simp only [ha, if_true]
  · simp only [ha, if_false, sub_zero]

/-- The value `hedge_chk`, `torus_chk`, `klein_chk` is the count the rule block
acts on: the cell a life function writes at an in-range `(i, j)` is the rule
applied to the old `A[i][j]` and that value. -/
theorem chk_decides (A B : Grid) (rows cols i j : Int) (h : inGrid rows cols i j) :
    (∃ n A' B', hedge_chk A rows cols i j = some n ∧
      hedge_life A B rows cols = some (A', B') ∧
      B' i j = if A i j = 1 then (if n < 2 then 0 else if n > 3 then 0 else 1)
        else (if n = 3 then 1 else 0)) ∧
    (∃ n A' B', torus_chk A rows cols i j = some n ∧
      torus_life A B rows cols = some (A', B') ∧
      B' i j = if A i j = 1 then (if n < 2 then 0 else if n > 3 then 0 else 1)
        else (if n = 3 then 1 else 0)) ∧
    (∃ n A' B', klein_chk A rows cols i j = some n ∧
      klein_life A B rows cols = some (A', B') ∧
      B' i j = if A i j = 1 then (if n < 2 then 0 else if n > 3 then 0 else 1)
        else (if n = 3 then 1 else 0)) := by
  refine ⟨⟨_, _, _, chk_eq _ _ A rows cols i j (hedge_count_eq A rows cols i j) h,
      hedge_life_eq A B rows cols, ?_⟩,
    ⟨_, _, _, chk_eq _ _ A rows cols i j (torus_count_eq A rows cols i j h) h,
      torus_life_eq A B rows cols, ?_⟩,
    ⟨_, _, _, chk_eq _ _ A rows cols i j (klein_count_eq A rows cols i j h) h,
      klein_life_eq A B rows cols, ?_⟩⟩ <;>
  · rw [overwrite_in _ _ _ _ _ _ h]
    exact next_cell_of_chk _ _

/-- C10 as stated fails: on the 1×1 torus every offset resolves to the cell
itself, so the count that decides `B[0][0]` is 8 when `A[0][0]` is alive and 0
when it is dead. -/
theorem centre_counted_on_unit_torus :
    torus_chk (setCell (gridOf []) 0 0 1) 1 1 0 0 = some 8 ∧
    torus_chk (setCell (gridOf []) 0 0 0) 1 1 0 0 = some 0 ∧
    torus_chk (setCell (gridOf []) 0 0 1) 1 1 0 0
      ≠ torus_chk (setCell (gridOf []) 0 0 0) 1 1 0 0 := by
  decide

/-- The count that decides `B[i][j]` is the same for two grids that differ
only at the in-range cell `(i, j)`: in `hedge_life` always, and in
`torus_life` and `klein_life` when `rows ≥ 2` and `cols ≥ 2`. -/
theorem centre_same (A A' : Grid) (rows cols i j : Int)
    (h1 : 0 ≤ i) (h2 : i < rows) (h3 : 0 ≤ j) (h4 : j < cols)
    (hsame : ∀ p q, (p ≠ i ∨ q ≠ j) → A p q = A' p q) :
    (∃ n, hedge_chk A rows cols i j = some n ∧ hedge_chk A' rows cols i j = some n) ∧
    (2 ≤ rows → 2 ≤ cols →
      (∃ n, torus_chk A rows cols i j = some n ∧ torus_chk A' rows cols i j = some n) ∧
      (∃ n, klein_chk A rows cols i j = some n ∧ klein_chk A' rows cols i j = some n)) := by
  have h : inGrid rows cols i j := ⟨h1, h2, h3, h4⟩
  refine ⟨⟨_, chk_eq _ _ A rows cols i j (hedge_count_eq A rows cols i j) h, ?_⟩, ?_⟩
  · rw [hedge_chk, chk_eq _ _ A' rows cols i j (hedge_count_eq A' rows cols i j) h,
      ← hedge_centre A rows cols i j h, ← hedge_centre A' rows cols i j h]
    congr 1
    apply sum9_off_centre
    intro x y hx hy hxy
    simp only [hedge_term]
    rw [hsame (i + x) (j + y) (by omega)]
  · intro hr2 hc2
    refine ⟨⟨_, chk_eq _ _ A rows cols i j (torus_count_eq A rows cols i j h) h, ?_⟩,
      ⟨_, chk_eq _ _ A rows cols i j (klein_count_eq A rows cols i j h) h, ?_⟩⟩
    · rw [torus_chk, chk_eq _ _ A' rows cols i j (torus_count_eq A' rows cols i j h) h,
        ← torus_centre A rows cols i j h, ← torus_centre A' rows cols i j h]
      congr 1
      apply sum9_off_centre
      intro x y hx hy hxy
      simp only [torus_term]
      rw [hsame _ _ (by unfold wrapIdx; split_ifs <;> omega)]
    · rw [klein_chk, chk_eq _ _ A' rows cols i j (klein_count_eq A' rows cols i j h) h,
        ← klein_centre A rows cols i j h, ← klein_centre A' rows cols i j h]
      congr 1
      apply sum9_off_centre
      intro x y hx hy hxy
      simp only [klein_term]
      rw [hsame _ _ (by unfold klein_cell wrapIdx; split_ifs <;> simp only <;> omega)]

/-- C11. Safety and totality: for `rows, cols ≥ 0` each of the three life
functions returns a result, which in this embedding means that every read of
`A` and every write of `A` or `B` was inside `[0,rows) × [0,cols)` and no `%`
had a zero divisor; the guarded scan of `hedge_life` is defined at every
in-range cell, and in `torus_life` and `klein_life` the pair `(tmp1, tmp2)` is
computed and lies inside the grid for every in-range cell and every offset in
`{-1,0,1}²`. -/
theorem life_total (A B : Grid) (rows cols : Int) (hr : 0 ≤ rows) (hc : 0 ≤ cols) :
    (∃ r, hedge_life A B rows cols = some r) ∧
    (∃ r, torus_life A B rows cols = some r) ∧
    (∃ r, klein_life A B rows cols = some r) ∧
    (∀ i j, 0 ≤ i → i < rows → 0 ≤ j → j < cols →
      ∃ n, hedge_count A rows cols i j = some n) ∧
    (∀ i j x y, 0 ≤ i → i < rows → 0 ≤ j → j < cols →
      -1 ≤ x → x ≤ 1 → -1 ≤ y → y ≤ 1 →
      ∃ t, torus_resolve rows cols i j x y = some t ∧
        0 ≤ t.1 ∧ t.1 < rows ∧ 0 ≤ t.2 ∧ t.2 < cols) ∧
    (∀ i j x y, 0 ≤ i → i < rows → 0 ≤ j → j < cols →
      -1 ≤ x → x ≤ 1 → -1 ≤ y → y ≤ 1 →
      ∃ t, klein_resolve rows cols i j x y = some t ∧
        0 ≤ t.1 ∧ t.1 < rows ∧ 0 ≤ t.2 ∧ t.2 < cols) := by
  refine ⟨⟨_, hedge_life_eq A B rows cols⟩, ⟨_, torus_life_eq A B rows cols⟩,
    ⟨_, klein_life_eq A B rows cols⟩, ?_, ?_, ?_⟩
  · intro i j _ _ _ _
    exact ⟨_, hedge_count_eq A rows cols i j⟩
  · intro i j x y h1 h2 h3 h4 hx1 hx2 hy1 hy2
    refine ⟨_, torus_resolve_eq rows cols i j x y ⟨h1, h2, h3, h4⟩ ⟨hx1, hx2⟩ ⟨hy1, hy2⟩, ?_⟩
    have a := wrapIdx_range (i + x) rows (by omega) (by omega)
    have b := wrapIdx_range (j + y) cols (by omega) (by omega)
    exact ⟨a.1, a.2, b.1, b.2⟩
  · intro i j x y h1 h2 h3 h4 hx1 hx2 hy1 hy2
    exact ⟨_, klein_resolve_eq rows cols i j x y ⟨h1, h2, h3, h4⟩ ⟨hx1, hx2⟩ ⟨hy1, hy2⟩,
      klein_cell_range rows cols i j x y ⟨h1, h2, h3, h4⟩ ⟨hx1, hx2⟩ ⟨hy1, hy2⟩⟩

/-- Instance of C11 on a 2×3 grid. -/
theorem life_total_witness :
    (0 : Int) ≤ 2 ∧ (0 : Int) ≤ 3 ∧
    (∃ r, hedge_life (gridOf [(0, 0)]) (gridOf []) 2 3 = some r) ∧
    (∃ r, torus_life (gridOf [(0, 0)]) (gridOf []) 2 3 = some r) ∧
    (∃ r, klein_life (gridOf [(0, 0)]) (gridOf []) 2 3 = some r) ∧
    (∀ i j, 0 ≤ i → i < 2 → 0 ≤ j → j < 3 →
      ∃ n, hedge_count (gridOf [(0, 0)]) 2 3 i j = some n) ∧
    (∀ i j x y, 0 ≤ i → i < 2 → 0 ≤ j → j < 3 →
      -1 ≤ x → x ≤ 1 → -1 ≤ y → y ≤ 1 →
      ∃ t, torus_resolve 2 3 i j x y = some t ∧ 0 ≤ t.1 ∧ t.1 < 2 ∧ 0 ≤ t.2 ∧ t.2 < 3) ∧
    (∀ i j x y, 0 ≤ i → i < 2 → 0 ≤ j → j < 3 →
      -1 ≤ x → x ≤ 1 → -1 ≤ y → y ≤ 1 →
      ∃ t, klein_resolve 2 3 i j x y = some t ∧ 0 ≤ t.1 ∧ t.1 < 2 ∧ 0 ≤ t.2 ∧ t.2 < 3) :=
  ⟨by decide, by decide,
    life_total (gridOf [(0, 0)]) (gridOf []) 2 3 (by decide) (by decide)⟩

theorem ind_alive (v : Nat) (P : Prop) [Decidable P] (h : v = 1 ↔ P) :
    ind v = if P then 1 else 0 := by
  unfold ind
  by_cases hp : P
  · rw [if_pos hp, if_pos (h.2 hp)]
  · rw [if_neg hp, if_neg (fun e => hp (h.1 e))]

theorem torus_term_corners (A : Grid) (rows cols : Int)
    (hA : ∀ i j, 0 ≤ i → i < rows → 0 ≤ j → j < cols →
      (A i j = 1 ↔ (i = 0 ∧ j = 0) ∨ (i = rows - 1 ∧ j = cols - 1)))
    (i j x y : Int) (h : inGrid rows cols i j) (hx : -1 ≤ x ∧ x ≤ 1) (hy : -1 ≤ y ∧ y ≤ 1) :
    torus_term A rows cols i j x y =
      if (wrapIdx (i + x) rows = 0 ∧ wrapIdx (j + y) cols = 0) ∨
        (wrapIdx (i + x) rows = rows - 1 ∧ wrapIdx (j + y) cols = cols - 1) then 1 else 0 := by
  obtain ⟨h1, h2, h3, h4⟩ := h
  have a := wrapIdx_range (i + x) rows (by omega) (by omega)
  have b := wrapIdx_range (j + y) cols (by omega) (by omega)
  exact ind_alive _ _ (hA _ _ a.1 a.2 b.1 b.2)

/-- C12. Toroidal corner adjacency: for `rows, cols ≥ 3`, on a grid whose only
alive cells are `(0, 0)` and `(rows - 1, cols - 1)`, the count `torus_life`
tests for `(0, 0)` is 1 and the count it tests for `(rows - 1, cols - 1)` is 1;
offset `(-1, -1)` from `(0, 0)` reads `(rows - 1, cols - 1)` and offset
`(1, 1)` from `(rows - 1, cols - 1)` reads `(0, 0)`. -/
theorem torus_corners_adjacent (A : Grid) (rows cols : Int) (hr : 3 ≤ rows) (hc : 3 ≤ cols)
    (hA : ∀ i j, 0 ≤ i → i < rows → 0 ≤ j → j < cols →
      (A i j = 1 ↔ (i = 0 ∧ j = 0) ∨ (i = rows - 1 ∧ j = cols - 1))) :
    torus_chk A rows cols 0 0 = some 1 ∧
    torus_chk A rows cols (rows - 1) (cols - 1) = some 1 ∧
    torus_resolve rows cols 0 0 (-1) (-1) = some (rows - 1, cols - 1) ∧
    torus_resolve rows cols (rows - 1) (cols - 1) 1 1 = some (0, 0) := by
  have g0 : inGrid rows cols 0 0 := ⟨le_refl _, by omega, le_refl _, by omega⟩
  have g1 : inGrid rows cols (rows - 1) (cols - 1) := ⟨by omega, by omega, by omega, by omega⟩
  have a0 : A 0 0 = 1 := (hA 0 0 g0.1 g0.2.1 g0.2.2.1 g0.2.2.2).2 (Or.inl ⟨rfl, rfl⟩)
  have a1 : A (rows - 1) (cols - 1) = 1 :=
    (hA _ _ g1.1 g1.2.1 g1.2.2.1 g1.2.2.2).2 (Or.inr ⟨rfl, rfl⟩)
  refine ⟨?_, ?_, ?_, ?_⟩
  · rw [torus_chk, chk_eq _ _ A rows cols 0 0 (torus_count_eq A rows cols 0 0 g0) g0,
      sum9_congr _ _ (fun x y hx hy => torus_term_corners A rows cols hA 0 0 x y g0 hx hy), a0]
    simp only [sum9, wrapIdx, ind]
    simp (disch := omega) only [if_pos, if_neg]
    simp
  · rw [torus_chk, chk_eq _ _ A rows cols _ _ (torus_count_eq A rows cols _ _ g1) g1,
      sum9_congr _ _ (fun x y hx hy => torus_term_corners A rows cols hA _ _ x y g1 hx hy), a1]
    simp only [sum9, wrapIdx, ind]
    simp (disch := omega) only [if_pos, if_neg]
    simp
  · rw [torus_resolve_eq rows cols 0 0 (-1) (-1) g0 (by decide) (by decide)]
    simp only [wrapIdx]
    simp (disch := omega) only [if_pos, if_neg]
  · rw [torus_resolve_eq rows cols _ _ 1 1 g1 (by decide) (by decide)]
    simp only [wrapIdx]
    simp (disch := omega) only [if_pos, if_neg]
    congr 2 <;> ring

theorem hedge_term_lone (A : Grid) (rows cols : Int)
    (hA : ∀ i j, 0 ≤ i → i < rows → 0 ≤ j → j < cols → (A i j = 1 ↔ (i = 0 ∧ j = 0)))
    (i j x y : Int) :
    hedge_term A rows cols i j x y =
      if inGrid rows cols (i + x) (j + y) ∧ (i + x = 0 ∧ j + y = 0) then 1 else 0 := by
  unfold hedge_term
  by_cases hin : inGrid rows cols (i + x) (j + y)
  · rw [if_pos hin, ind_alive _ _ (hA _ _ hin.1 hin.2.1 hin.2.2.1 hin.2.2.2)]
    simp only [hin, true_and]
  · rw [if_neg hin, if_neg (fun h => hin h.1)]

theorem torus_term_lone (A : Grid) (rows cols : Int)
    (hA : ∀ i j, 0 ≤ i → i < rows → 0 ≤ j → j < cols → (A i j = 1 ↔ (i = 0 ∧ j = 0)))
    (i j x y : Int) (h : inGrid rows cols i j) (hx : -1 ≤ x ∧ x ≤ 1) (hy : -1 ≤ y ∧ y ≤ 1) :
    torus_term A rows cols i j x y =
      if wrapIdx (i + x) rows = 0 ∧ wrapIdx (j + y) cols = 0 then 1 else 0 := by
  obtain ⟨h1, h2, h3, h4⟩ := h
  have a := wrapIdx_range (i + x) rows (by omega) (by omega)
  have b := wrapIdx_range (j + y) cols (by omega) (by omega)
  exact ind_alive _ _ (hA _ _ a.1 a.2 b.1 b.2)

theorem hedge_sum_lone (A : Grid) (rows cols : Int) (hr : 1 ≤ rows) (hc : 1 ≤ cols)
    (hA : ∀ i j, 0 ≤ i → i < rows → 0 ≤ j → j < cols → (A i j = 1 ↔ (i = 0 ∧ j = 0))) :
    sum9 (hedge_term A rows cols 0 0) = 1 := by
  rw [sum9_congr _ _ (fun x y _ _ => hedge_term_lone A rows cols hA 0 0 x y)]
  simp only [sum9, inGrid]
  simp (disch := omega) only [if_pos, if_neg]
  rfl

/-- C13. Bounded edge death: for `rows, cols ≥ 1`, when `(0, 0)` is the only
alive cell of `A`, `hedge_life` returns and `B[0][0]` is 0. -/
theorem hedge_corner_dies (A B : Grid) (rows cols : Int) (hr : 1 ≤ rows) (hc : 1 ≤ cols)
    (hA : ∀ i j, 0 ≤ i → i < rows → 0 ≤ j → j < cols → (A i j = 1 ↔ (i = 0 ∧ j = 0))) :
    ∃ A' B', hedge_life A B rows cols = some (A', B') ∧ B' 0 0 = 0 := by
  have g0 : inGrid rows cols 0 0 := ⟨le_refl _, by omega, le_refl _, by omega⟩
  have a0 : A 0 0 = 1 := (hA 0 0 g0.1 g0.2.1 g0.2.2.1 g0.2.2.2).2 ⟨rfl, rfl⟩
  refine ⟨_, _, hedge_life_eq A B rows cols, ?_⟩
  rw [overwrite_in _ _ _ _ _ _ g0, hedge_sum_lone A rows cols hr hc hA, a0]
  rfl

/-- C14 as stated fails: on the 3×3 grid whose only alive cell is `(0, 0)`
both `hedge_life` and `torus_life` test the count 0 for `(0, 0)`, so the
bounded count is not strictly smaller. -/
theorem corner_counts_equal_3x3 :
    hedge_chk (gridOf [(0, 0)]) 3 3 0 0 = some 0 ∧
    torus_chk (gridOf [(0, 0)]) 3 3 0 0 = some 0 ∧
    ¬ ∃ h t, hedge_chk (gridOf [(0, 0)]) 3 3 0 0 = some h ∧
      torus_chk (gridOf [(0, 0)]) 3 3 0 0 = some t ∧ h < t := by
  have e1 : hedge_chk (gridOf [(0, 0)]) 3 3 0 0 = some 0 := by decide
  have e2 : torus_chk (gridOf [(0, 0)]) 3 3 0 0 = some 0 := by decide
  refine ⟨e1, e2, ?_⟩
  rintro ⟨h, t, h1, h2, hlt⟩
  rw [e1] at h1
  rw [e2] at h2
  cases h1
  cases h2
  exact absurd hlt (by decide)

/-- C14, amended. For `rows, cols ≥ 1` and a grid whose only alive cell is
`(0, 0)`, the count `hedge_life` tests for `(0, 0)` is 0 and is not greater
than the count `torus_life` tests for `(0, 0)`; it is strictly smaller exactly
when the grid has a single row or a single column. -/
theorem corner_count_bounded_le_torus (A : Grid) (rows cols : Int)
    (hr : 1 ≤ rows) (hc : 1 ≤ cols)
    (hA : ∀ i j, 0 ≤ i → i < rows → 0 ≤ j → j < cols → (A i j = 1 ↔ (i = 0 ∧ j = 0))) :
    ∃ h t, hedge_chk A rows cols 0 0 = some h ∧ torus_chk A rows cols 0 0 = some t ∧
      h = 0 ∧ h ≤ t ∧ (h < t ↔ rows = 1 ∨ cols = 1) := by
  have g0 : inGrid rows cols 0 0 := ⟨le_refl _, by omega, le_refl _, by omega⟩
  have a0 : A 0 0 = 1 := (hA 0 0 g0.1 g0.2.1 g0.2.2.1 g0.2.2.2).2 ⟨rfl, rfl⟩
  have i0 : ind (A 0 0) = 1 := by rw [a0]; rfl
  refine ⟨_, _, chk_eq _ _ A rows cols 0 0 (hedge_count_eq A rows cols 0 0) g0,
    chk_eq _ _ A rows cols 0 0 (torus_count_eq A rows cols 0 0 g0) g0, ?_, ?_⟩
  · rw [hedge_sum_lone A rows cols hr hc hA, i0]; rfl
  · rw [hedge_sum_lone A rows cols hr hc hA, i0,
      sum9_congr _ _ (fun x y hx hy => torus_term_lone A rows cols hA 0 0 x y g0 hx hy)]
    simp only [sum9, wrapIdx]
    have c1 : rows = 1 ∨ 2 ≤ rows := by omega
    have c2 : cols = 1 ∨ 2 ≤ cols := by omega
    rcases c1 with c1 | c1 <;> rcases c2 with c2 | c2 <;>
    simp (disch := omega) only [if_pos, if_neg] <;> constructor <;> omega

theorem lone_corner_alive (i j : Int) : gridOf [(0, 0)] i j = 1 ↔ (i = 0 ∧ j = 0) := by
  rw [gridOf_alive]
  simp only [List.mem_cons, Prod.mk.injEq, List.mem_nil_iff, or_false]

/-- Instance of C12 on the 3×3 grid. -/
theorem torus_corners_adjacent_witness :
    torus_chk (gridOf [(0, 0), (2, 2)]) 3 3 0 0 = some 1 ∧
    torus_chk (gridOf [(0, 0), (2, 2)]) 3 3 (3 - 1) (3 - 1) = some 1 ∧
    torus_resolve 3 3 0 0 (-1) (-1) = some (3 - 1, 3 - 1) ∧
    torus_resolve 3 3 (3 - 1) (3 - 1) 1 1 = some (0, 0) :=
  torus_corners_adjacent (gridOf [(0, 0), (2, 2)]) 3 3 (by decide) (by decide)
    (fun i j _ _ _ _ => by
      rw [gridOf_alive]
      simp only [List.mem_cons, Prod.mk.injEq, List.mem_nil_iff, or_false]
      norm_num)

/-- Instance of C13 on the 1×1 grid. -/
theorem hedge_corner_dies_witness :
    ∃ A' B', hedge_life (gridOf [(0, 0)]) (gridOf [(0, 0)]) 1 1 = some (A', B') ∧ B' 0 0 = 0 :=
  hedge_corner_dies (gridOf [(0, 0)]) (gridOf [(0, 0)]) 1 1 (by decide) (by decide)
    (fun i j _ _ _ _ => lone_corner_alive i j)

/-- Instance of the amended C14 on the 1×3 grid, where the torus count is
positive. -/
theorem corner_count_bounded_le_torus_witness :
    ∃ h t, hedge_chk (gridOf [(0, 0)]) 1 3 0 0 = some h ∧
      torus_chk (gridOf [(0, 0)]) 1 3 0 0 = some t ∧
      h = 0 ∧ h ≤ t ∧ (h < t ↔ (1 : Int) = 1 ∨ (3 : Int) = 1) :=
  corner_count_bounded_le_torus (gridOf [(0, 0)]) 1 3 (by decide) (by decide)
    (fun i j _ _ _ _ => lone_corner_alive i j)

theorem alloc_rows_ok (row_ok : Int → Bool) :
    ∀ (n : Nat) (lo : Int), (∀ k, lo ≤ k → k < lo + n → row_ok k = true) →
      alloc_rows row_ok n lo = true := by
  intro n
  induction n with
  | zero => intro lo _; rfl
  | succ n ih =>
    intro lo h
    have h0 := h lo (le_refl _) (by push_cast; omega)
    simp only [alloc_rows, h0, if_true]
    exact ih (lo + 1) (fun k hk1 hk2 => h k (by omega) (by push_cast; omega))

theorem init_matrix_eq (m : Heap) (rows cols : Int) :
    init_matrix m rows cols =
      if m.outer_ok = false then some none
      else if alloc_rows m.row_ok rows.toNat 0 = false then some none
      else some (some (overwrite (fun _ _ => 0) m.junk rows cols)) := by
  have h := fill_loops (fun _ _ => 0) (fun i j S => store S rows cols i j 0) rows cols
    (by intro i j S h; simp only [store, h, if_true]) m.junk
  unfold init_matrix
  rw [h, Option.some_bind]

/-- C16. `init_matrix` returns a zero-initialised grid: for `rows, cols ≥ 0`,
when the allocation of the row pointers and of every row succeeds,
`init_matrix (rows, cols)` returns a matrix (not `NULL`) in which every cell
`a[i][j]` with `0 ≤ i < rows`, `0 ≤ j < cols` is 0, whatever the fresh memory
held. -/
theorem init_matrix_zeroed (m : Heap) (rows cols : Int) (hr : 0 ≤ rows) (hc : 0 ≤ cols)
    (ho : m.outer_ok = true) (hrow : ∀ i, 0 ≤ i → i < rows → m.row_ok i = true) :
    ∃ a, init_matrix m rows cols = some (some a) ∧
      ∀ i j, 0 ≤ i → i < rows → 0 ≤ j → j < cols → a i j = 0 := by
  have hal : alloc_rows m.row_ok rows.toNat 0 = true :=
    alloc_rows_ok m.row_ok rows.toNat 0 (fun k hk1 hk2 => hrow k hk1 (by omega))
  refine ⟨overwrite (fun _ _ => 0) m.junk rows cols, ?_, ?_⟩
  · rw [init_matrix_eq, ho, hal]
    rfl
  · intro i j h1 h2 h3 h4
    exact overwrite_in _ _ _ _ _ _ ⟨h1, h2, h3, h4⟩

/-- Instance of C16: a 2×3 matrix from memory that held 7 everywhere. -/
theorem init_matrix_zeroed_witness :
    ∃ a, init_matrix fullHeap 2 3 = some (some a) ∧
      ∀ i j, 0 ≤ i → i < 2 → 0 ≤ j → j < 3 → a i j = 0 :=
  init_matrix_zeroed fullHeap 2 3 (by decide) (by decide) rfl (fun _ _ _ => rfl)

theorem life_form (border : String) (L : Grid → Grid → Int → Int → Option (Grid × Grid))
    (hL : (border = "hedge" ∧ L = hedge_life) ∨ (border = "torus" ∧ L = torus_life) ∨
      (border = "klein" ∧ L = klein_life)) (A B : Grid) (ws hs : Int) :
    ∃ A' B', L A B ws hs = some (A', B') ∧ ∀ i j, inGrid ws hs i j → A' i j = 0 := by
  rcases hL with ⟨-, rfl⟩ | ⟨-, rfl⟩ | ⟨-, rfl⟩
  · exact ⟨_, _, hedge_life_eq A B ws hs, fun i j h => overwrite_in _ _ _ _ _ _ h⟩
  · exact ⟨_, _, torus_life_eq A B ws hs, fun i j h => overwrite_in _ _ _ _ _ _ h⟩
  · exact ⟨_, _, klein_life_eq A B ws hs, fun i j h => overwrite_in _ _ _ _ _ _ h⟩

theorem main_pass_eq (border : String) (L : Grid → Grid → Int → Int → Option (Grid × Grid))
    (hL : (border = "hedge" ∧ L = hedge_life) ∨ (border = "torus" ∧ L = torus_life) ∨
      (border = "klein" ∧ L = klein_life)) (A B A1 B1 A2 B2 : Grid) (ws hs : Int)
    (h1 : L A B ws hs = some (A1, B1)) (h2 : L B1 A1 ws hs = some (B2, A2)) :
    main_pass border A B ws hs = some (A2, B2) := by
  rcases hL with ⟨rfl, rfl⟩ | ⟨rfl, rfl⟩ | ⟨rfl, rfl⟩
  · have n1 : ¬ ("hedge" = "torus") := by decide
    have n2 : ¬ ("hedge" = "klein") := by decide
    simp only [main_pass, n1, n2, if_false, if_true, Option.some_bind, h1, h2]
  · have n1 : ¬ ("torus" = "hedge") := by decide
    have n2 : ¬ ("torus" = "klein") := by decide
    simp only [main_pass, n1, n2, if_false, if_true, Option.some_bind, h1, h2]
  · have n1 : ¬ ("klein" = "torus") := by decide
    have n2 : ¬ ("klein" = "hedge") := by decide
    simp only [main_pass, n1, n2, if_false, if_true, Option.some_bind, h1, h2]

theorem main_passes_next_zero (border : String)
    (L : Grid → Grid → Int → Int → Option (Grid × Grid))
    (hL : (border = "hedge" ∧ L = hedge_life) ∨ (border = "torus" ∧ L = torus_life) ∨
      (border = "klein" ∧ L = klein_life)) (A B : Grid) (ws hs : Int)
    (hB : ∀ i j, inGrid ws hs i j → B i j = 0) :
    ∀ n : Nat, ∃ An Bn, main_passes border ws hs n (A, B) = some (An, Bn) ∧
      ∀ i j, inGrid ws hs i j → Bn i j = 0 := by
  intro n
  induction n with
  | zero => exact ⟨A, B, rfl, hB⟩
  | succ n ih =>
    obtain ⟨An, Bn, e, -⟩ := ih
    obtain ⟨A1, B1, e1, -⟩ := life_form border L hL An Bn ws hs
    obtain ⟨B2, A2, e2, z2⟩ := life_form border L hL B1 A1 ws hs
    refine ⟨A2, B2, ?_, z2⟩
    simp only [main_passes, e, Option.some_bind]
    exact main_pass_eq border L hL An Bn A1 B1 A2 B2 ws hs e1 e2

/-- C15. Double-buffer invariant of the main loop: for a fixed life function
`L` selected by `border`, starting from buffers `A`, `B` with `B` zero in
range, after every number `n` of passes the loop stands at some `(An, Bn)`
with `Bn`, the `next` buffer of the coming call, zero in range; that call
`L (An, Bn)` returns with its `current` buffer `A1` zero in range, which is the
`next` buffer of the second call `L (B1, A1)`; the second call returns with
its `current` buffer `B2` zero in range, and the result is the state after
`n + 1` passes. -/
theorem double_buffer_invariant (border : String)
    (L : Grid → Grid → Int → Int → Option (Grid × Grid))
    (hL : (border = "hedge" ∧ L = hedge_life) ∨ (border = "torus" ∧ L = torus_life) ∨
      (border = "klein" ∧ L = klein_life)) (A B : Grid) (ws hs : Int)
    (hB : ∀ i j, 0 ≤ i → i < ws → 0 ≤ j → j < hs → B i j = 0) (n : Nat) :
    ∃ An Bn A1 B1 A2 B2,
      main_passes border ws hs n (A, B) = some (An, Bn) ∧
      (∀ i j, 0 ≤ i → i < ws → 0 ≤ j → j < hs → Bn i j = 0) ∧
      L An Bn ws hs = some (A1, B1) ∧
      (∀ i j, 0 ≤ i → i < ws → 0 ≤ j → j < hs → A1 i j = 0) ∧
      L B1 A1 ws hs = some (B2, A2) ∧
      (∀ i j, 0 ≤ i → i < ws → 0 ≤ j → j < hs → B2 i j = 0) ∧
      main_passes border ws hs (n + 1) (A, B) = some (A2, B2) := by
  obtain ⟨An, Bn, e, zn⟩ := main_passes_next_zero border L hL A B ws hs
    (fun i j h => hB i j h.1 h.2.1 h.2.2.1 h.2.2.2) n
  obtain ⟨A1, B1, e1, z1⟩ := life_form border L hL An Bn ws hs
  obtain ⟨B2, A2, e2, z2⟩ := life_form border L hL B1 A1 ws hs
  refine ⟨An, Bn, A1, B1, A2, B2, e, fun i j a b c d => zn i j ⟨a, b, c, d⟩, e1,
    fun i j a b c d => z1 i j ⟨a, b, c, d⟩, e2, fun i j a b c d => z2 i j ⟨a, b, c, d⟩, ?_⟩
  simp only [main_passes, e, Option.some_bind]
  exact main_pass_eq border L hL An Bn A1 B1 A2 B2 ws hs e1 e2

/-- Instance of C15: the torus loop on a 5×5 grid holding a blinker, after
three passes. -/
theorem double_buffer_invariant_witness :
    ∃ An Bn A1 B1 A2 B2,
      main_passes "torus" 5 5 3 (gridOf (blinker_h 2 2), gridOf []) = some (An, Bn) ∧
      (∀ i j, 0 ≤ i → i < 5 → 0 ≤ j → j < 5 → Bn i j = 0) ∧
      torus_life An Bn 5 5 = some (A1, B1) ∧
      (∀ i j, 0 ≤ i → i < 5 → 0 ≤ j → j < 5 → A1 i j = 0) ∧
      torus_life B1 A1 5 5 = some (B2, A2) ∧
      (∀ i j, 0 ≤ i → i < 5 → 0 ≤ j → j < 5 → B2 i j = 0) ∧
      main_passes "torus" 5 5 (3 + 1) (gridOf (blinker_h 2 2), gridOf []) = some (A2, B2) :=
  double_buffer_invariant "torus" torus_life (Or.inr (Or.inl ⟨rfl, rfl⟩))
    (gridOf (blinker_h 2 2)) (gridOf []) 5 5 (fun _ _ _ _ _ _ => rfl) 3

theorem main_pass_other (border : String)
    (hb : border ≠ "hedge" ∧ border ≠ "torus" ∧ border ≠ "klein") (A B : Grid) (ws hs : Int) :
    main_pass border A B ws hs = some (A, B) := by
  simp only [main_pass, hb.1, hb.2.1, hb.2.2, if_false, Option.some_bind]

theorem main_run_other (border : String)
    (hb : border ≠ "hedge" ∧ border ≠ "torus" ∧ border ≠ "klein") (A B : Grid) (ws hs : Int)
    (quit : Nat → Bool) :
    ∀ n : Nat, (main_run border ws hs quit n (A, B) = some (Outcome.running A B) ∧
        ∀ k, k < n → quit k = false) ∨
      (main_run border ws hs quit n (A, B) = some (Outcome.exited 0) ∧
        ∃ k, k < n ∧ quit k = true) := by
  intro n
  induction n with
  | zero => exact Or.inl ⟨rfl, fun k hk => absurd hk (Nat.not_lt_zero k)⟩
  | succ n ih =>
    rcases ih with ⟨e, hq⟩ | ⟨e, k, hk, hq⟩
    · by_cases hn : quit n = true
      · refine Or.inr ⟨?_, n, Nat.lt_succ_self n, hn⟩
        simp only [main_run, e, Option.some_bind, main_pass_other border hb, hn, if_true]
      · refine Or.inl ⟨?_, ?_⟩
        · simp only [main_run, e, Option.some_bind, main_pass_other border hb, hn]
          rfl
        · intro k hk
          rcases Nat.lt_succ_iff_lt_or_eq.1 hk with h | h
          · exact hq k h
          · rw [h]; simpa using hn
    · refine Or.inr ⟨?_, k, Nat.lt_succ_of_lt hk, hq⟩
      simp only [main_run, e, Option.some_bind]

theorem wrap_sym (n i i' x : Int) (hn : 1 ≤ n) (h1 : 0 ≤ i) (h2 : i < n) (h3 : 0 ≤ i')
    (h4 : i' < n) (hx : -1 ≤ x ∧ x ≤ 1) :
    wrapIdx (i + x) n = i' ↔ wrapIdx (i' + -x) n = i := by
  unfold wrapIdx
  split_ifs <;> omega

theorem flip_sym (n j j' y : Int) (hn : 1 ≤ n) (h1 : 0 ≤ j) (h2 : j < n) (h3 : 0 ≤ j')
    (h4 : j' < n) (hy : -1 ≤ y ∧ y ≤ 1) :
    n - wrapIdx (j + y) n - 1 = j' ↔ n - wrapIdx (j' + y) n - 1 = j := by
  unfold wrapIdx
  split_ifs <;> omega

theorem torus_resolve_sym (rows cols i j i' j' x y : Int) (h : inGrid rows cols i j)
    (h' : inGrid rows cols i' j') (hx : -1 ≤ x ∧ x ≤ 1) (hy : -1 ≤ y ∧ y ≤ 1) :
    decide (torus_resolve rows cols i j x y = some (i', j')) =
      decide (torus_resolve rows cols i' j' (-x) (-y) = some (i, j)) := by
  rw [decide_eq_decide, torus_resolve_eq rows cols i j x y h hx hy,
    torus_resolve_eq rows cols i' j' (-x) (-y) h' (by omega) (by omega)]
  simp only [Option.some.injEq, Prod.mk.injEq]
  rw [wrap_sym rows i i' x (by have := h.1; have := h.2.1; omega) h.1 h.2.1 h'.1 h'.2.1 hx,
    wrap_sym cols j j' y (by have := h.2.2.1; have := h.2.2.2; omega) h.2.2.1 h.2.2.2
      h'.2.2.1 h'.2.2.2 hy]

theorem klein_resolve_sym (rows cols i j i' j' x y : Int) (h : inGrid rows cols i j)
    (h' : inGrid rows cols i' j') (hx : -1 ≤ x ∧ x ≤ 1) (hy : -1 ≤ y ∧ y ≤ 1) :
    decide (klein_resolve rows cols i j x y = some (i', j')) =
      decide (klein_resolve rows cols i' j' (-x)
        (if i + x < 0 ∨ rows ≤ i + x then y else -y) = some (i, j)) := by
  obtain ⟨h1, h2, h3, h4⟩ := h
  obtain ⟨g1, g2, g3, g4⟩ := h'
  have hy' : -1 ≤ (if i + x < 0 ∨ rows ≤ i + x then y else -y) ∧
      (if i + x < 0 ∨ rows ≤ i + x then y else -y) ≤ 1 := by
    split_ifs <;> omega
  rw [decide_eq_decide, klein_resolve_eq rows cols i j x y ⟨h1, h2, h3, h4⟩ hx hy,
    klein_resolve_eq rows cols i' j' (-x) _ ⟨g1, g2, g3, g4⟩ (by omega) hy']
  simp only [Option.some.injEq]
  have fs := flip_sym cols j j' y (by omega) h3 h4 g3 g4 hy
  have ws := wrap_sym cols j j' y (by omega) h3 h4 g3 g4 hy
  by_cases hc : i + x < 0 ∨ rows ≤ i + x
  · rw [if_pos hc]
    unfold klein_cell
    rcases hc with hc | hc
    · rw [if_pos hc]
      by_cases hr : rows ≤ i' + -x
      · rw [if_neg (by omega), if_pos hr]
        simp only [Prod.mk.injEq]
        rw [← fs]
        constructor <;> rintro ⟨a, b⟩ <;> exact ⟨by omega, b⟩
      · rw [if_neg (by omega), if_neg hr]
        simp only [Prod.mk.injEq]
        constructor <;> rintro ⟨a, -⟩ <;> omega
    · rw [if_neg (by omega), if_pos hc]
      by_cases hr : i' + -x < 0
      · rw [if_pos hr]
        simp only [Prod.mk.injEq]
        rw [← fs]
        constructor <;> rintro ⟨a, b⟩ <;> exact ⟨by omega, b⟩
      · rw [if_neg hr]
        by_cases hr2 : rows ≤ i' + -x
        · rw [if_pos hr2]
          simp only [Prod.mk.injEq]
          constructor <;> rintro ⟨a, -⟩ <;> omega
        · rw [if_neg hr2]
          simp only [Prod.mk.injEq]
          constructor <;> rintro ⟨a, -⟩ <;> omega
  · rw [if_neg hc]
    unfold klein_cell
    rw [if_neg (by omega), if_neg (by omega)]
    by_cases hr : i' + -x < 0
    · rw [if_pos hr]
      simp only [Prod.mk.injEq]
      constructor <;> rintro ⟨a, -⟩ <;> omega
    · rw [if_neg hr]
      by_cases hr2 : rows ≤ i' + -x
      · rw [if_pos hr2]
        simp only [Prod.mk.injEq]
        constructor <;> rintro ⟨a, -⟩ <;> omega
      · rw [if_neg hr2]
        simp only [Prod.mk.injEq]
        rw [← ws]
        constructor <;> rintro ⟨a, b⟩ <;> exact ⟨by omega, b⟩

theorem torus_reads_sym (rows cols i j i' j' : Int) (h : inGrid rows cols i j)
    (h' : inGrid rows cols i' j') :
    torus_reads rows cols (i, j) (i', j') = torus_reads rows cols (i', j') (i, j) := by
  have e := fun x y hx hy => torus_resolve_sym rows cols i j i' j' x y h h' hx hy
  simp only [torus_reads, offsets8, List.countP_cons, List.countP_nil]
  rw [e (-1) (-1) (by decide) (by decide), e (-1) 0 (by decide) (by decide),
    e (-1) 1 (by decide) (by decide), e 0 (-1) (by decide) (by decide),
    e 0 1 (by decide) (by decide), e 1 (-1) (by decide) (by decide),
    e 1 0 (by decide) (by decide), e 1 1 (by decide) (by decide)]
  simp only [neg_neg, neg_zero]
  ring

theorem klein_reads_sym (rows cols i j i' j' : Int) (h : inGrid rows cols i j)
    (h' : inGrid rows cols i' j') :
    klein_reads rows cols (i, j) (i', j') = klein_reads rows cols (i', j') (i, j) := by
  have e := fun x y hx hy => klein_resolve_sym rows cols i j i' j' x y h h' hx hy
  simp only [klein_reads, offsets8, List.countP_cons, List.countP_nil]
  rw [e (-1) (-1) (by decide) (by decide), e (-1) 0 (by decide) (by decide),
    e (-1) 1 (by decide) (by decide), e 0 (-1) (by decide) (by decide),
    e 0 1 (by decide) (by decide), e 1 (-1) (by decide) (by decide),
    e 1 0 (by decide) (by decide), e 1 1 (by decide) (by decide)]
  obtain ⟨h1, h2, h3, h4⟩ := h
  by_cases c0 : i = 0 <;> by_cases c1 : i = rows - 1 <;>
  simp (disch := omega) only [if_pos, if_neg, neg_neg, neg_zero] <;> ring

/-- C19. Neighbourhood symmetry of the wrapped topologies: for `rows, cols ≥ 1`
and in-range cells `p`, `q`, the number of non-zero offsets at which
`torus_life` reads `q` while processing `p` equals the number at which it reads
`p` while processing `q`, and the same holds for `klein_life`. -/
theorem wrapped_reads_symmetric (rows cols : Int) (p q : Int × Int)
    (hr : 1 ≤ rows) (hc : 1 ≤ cols)
    (hp : 0 ≤ p.1 ∧ p.1 < rows ∧ 0 ≤ p.2 ∧ p.2 < cols)
    (hq : 0 ≤ q.1 ∧ q.1 < rows ∧ 0 ≤ q.2 ∧ q.2 < cols) :
    torus_reads rows cols p q = torus_reads rows cols q p ∧
    klein_reads rows cols p q = klein_reads rows cols q p := by
  obtain ⟨i, j⟩ := p
  obtain ⟨i', j'⟩ := q
  exact ⟨torus_reads_sym rows cols i j i' j' hp hq, klein_reads_sym rows cols i j i' j' hp hq⟩

/-- Instance of C19 across the column-inverting seam of a 3×4 grid. -/
theorem wrapped_reads_symmetric_witness :
    torus_reads 3 4 (0, 1) (2, 2) = torus_reads 3 4 (2, 2) (0, 1) ∧
    klein_reads 3 4 (0, 1) (2, 2) = klein_reads 3 4 (2, 2) (0, 1) :=
  wrapped_reads_symmetric 3 4 (0, 1) (2, 2) (by decide) (by decide) (by decide) (by decide)

theorem wrapIdx_emod (k n : Int) (hn : 1 ≤ n) (hk : -1 ≤ k) (hkn : k ≤ n) :
    wrapIdx k n = k % n := by
  rw [wrapIdx_spec k n hn hk hkn]
  unfold spec_mod
  rw [Int.add_emod_self, Int.emod_emod_of_dvd _ (dvd_refl _)]

theorem wrap_shift (n i a x : Int) (hn : 1 ≤ n) (h1 : 0 ≤ i) (h2 : i < n)
    (hx : -1 ≤ x ∧ x ≤ 1) :
    (wrapIdx (i + x) n - a) % n = wrapIdx ((i - a) % n + x) n := by
  have p1 : 0 ≤ (i - a) % n := Int.emod_nonneg _ (by omega)
  have p2 : (i - a) % n < n := Int.emod_lt_of_pos _ (by omega)
  rw [wrapIdx_emod (i + x) n hn (by omega) (by omega),
    wrapIdx_emod ((i - a) % n + x) n hn (by omega) (by omega), Int.emod_add_emod,
    sub_eq_add_neg, Int.emod_add_emod]
  congr 1
  ring

theorem shift_term (A : Grid) (rows cols a b i j x y : Int) (h : inGrid rows cols i j)
    (hx : -1 ≤ x ∧ x ≤ 1) (hy : -1 ≤ y ∧ y ≤ 1) :
    torus_term (shift A rows cols a b) rows cols i j x y =
      torus_term A rows cols ((i - a) % rows) ((j - b) % cols) x y := by
  obtain ⟨h1, h2, h3, h4⟩ := h
  simp only [torus_term, shift]
  rw [wrap_shift rows i a x (by omega) h1 h2 hx, wrap_shift cols j b y (by omega) h3 h4 hy]

theorem shift_moves (A : Grid) (rows cols a b i j : Int) (h : inGrid rows cols i j) :
    shift A rows cols a b ((i + a) % rows) ((j + b) % cols) = A i j := by
  obtain ⟨h1, h2, h3, h4⟩ := h
  have e1 : ((i + a) % rows - a) % rows = i := by
    rw [sub_eq_add_neg, Int.emod_add_emod, add_neg_cancel_right]
    exact Int.emod_eq_of_lt h1 h2
  have e2 : ((j + b) % cols - b) % cols = j := by
    rw [sub_eq_add_neg, Int.emod_add_emod, add_neg_cancel_right]
    exact Int.emod_eq_of_lt h3 h4
  simp only [shift, e1, e2]

/-- C20. Translation equivariance of `torus_life`: for `rows, cols ≥ 1`, any
grid `A` and any shift `(a, b)`, `torus_life` applied to `A` shifted
cyclically by `(a, b)` returns, and its next grid is, at every in-range cell,
the next grid `torus_life` returns for `A`, shifted by `(a, b)`; the prior
contents of the two output buffers play no part.  The shift moves the cell
`(i, j)` to `((i + a) mod rows, (j + b) mod cols)`. -/
theorem torus_life_shift (A B B' : Grid) (rows cols a b : Int)
    (hr : 1 ≤ rows) (hc : 1 ≤ cols) :
    ∃ A1 B1 A2 B2,
      torus_life (shift A rows cols a b) B rows cols = some (A1, B1) ∧
      torus_life A B' rows cols = some (A2, B2) ∧
      (∀ i j, 0 ≤ i → i < rows → 0 ≤ j → j < cols →
        B1 i j = shift B2 rows cols a b i j) ∧
      (∀ i j, 0 ≤ i → i < rows → 0 ≤ j → j < cols →
        shift A rows cols a b ((i + a) % rows) ((j + b) % cols) = A i j) := by
  refine ⟨_, _, _, _, torus_life_eq (shift A rows cols a b) B rows cols,
    torus_life_eq A B' rows cols, ?_,
    fun i j h1 h2 h3 h4 => shift_moves A rows cols a b i j ⟨h1, h2, h3, h4⟩⟩
  intro i j h1 h2 h3 h4
  have h : inGrid rows cols i j := ⟨h1, h2, h3, h4⟩
  have h0 : inGrid rows cols ((i - a) % rows) ((j - b) % cols) :=
    ⟨Int.emod_nonneg _ (by omega), Int.emod_lt_of_pos _ (by omega),
      Int.emod_nonneg _ (by omega), Int.emod_lt_of_pos _ (by omega)⟩
  rw [overwrite_in _ _ _ _ _ _ h]
  show _ = overwrite _ B' rows cols ((i - a) % rows) ((j - b) % cols)
  rw [overwrite_in _ _ _ _ _ _ h0,
    sum9_congr _ _ (fun x y hx hy => shift_term A rows cols a b i j x y h hx hy)]
  rfl

/-- Instance of C20: a 4×5 grid shifted by `(1, -2)`. -/
theorem torus_life_shift_witness :
    ∃ A1 B1 A2 B2,
      torus_life (shift (gridOf [(0, 0), (0, 1), (1, 1)]) 4 5 1 (-2)) (gridOf []) 4 5
        = some (A1, B1) ∧
      torus_life (gridOf [(0, 0), (0, 1), (1, 1)]) (gridOf [(3, 3)]) 4 5 = some (A2, B2) ∧
      (∀ i j, 0 ≤ i → i < 4 → 0 ≤ j → j < 5 → B1 i j = shift B2 4 5 1 (-2) i j) ∧
      (∀ i j, 0 ≤ i → i < 4 → 0 ≤ j → j < 5 →
        shift (gridOf [(0, 0), (0, 1), (1, 1)]) 4 5 1 (-2) ((i + 1) % 4) ((j + -2) % 5)
          = gridOf [(0, 0), (0, 1), (1, 1)] i j) :=
  torus_life_shift (gridOf [(0, 0), (0, 1), (1, 1)]) (gridOf []) (gridOf [(3, 3)]) 4 5 1 (-2)
    (by decide) (by decide)

theorem sum9_add (f g h : Int → Int → Int)
    (e : ∀ x y, -1 ≤ x ∧ x ≤ 1 → -1 ≤ y ∧ y ≤ 1 → f x y = g x y + h x y) :
    sum9 f = sum9 g + sum9 h := by
  rw [sum9_congr f (fun x y => g x y + h x y) e]
  simp only [sum9]
  ring

/-- With the centre alive in `A` and not alive in `A'`, the grids agreeing
elsewhere, an offset of `torus_life` adds one more for `A` exactly when it
resolves to the centre. -/
theorem torus_term_self (A A' : Grid) (rows cols i j x y : Int) (h : inGrid rows cols i j)
    (hsame : ∀ p q, (p ≠ i ∨ q ≠ j) → A p q = A' p q) (ha : A i j = 1) (ha' : A' i j ≠ 1)
    (hx : -1 ≤ x ∧ x ≤ 1) (hy : -1 ≤ y ∧ y ≤ 1) :
    torus_term A rows cols i j x y = torus_term A' rows cols i j x y +
      (if decide (torus_resolve rows cols i j x y = some (i, j)) then 1 else 0) := by
  rw [torus_resolve_eq rows cols i j x y h hx hy]
  simp only [torus_term, Option.some.injEq, Prod.mk.injEq, decide_eq_true_eq]
  by_cases hs : wrapIdx (i + x) rows = i ∧ wrapIdx (j + y) cols = j
  · rw [if_pos hs, hs.1, hs.2, ind_of_ne _ ha']
    simp only [ind, ha, if_true, zero_add]
  · rw [if_neg hs, add_zero, hsame _ _ (by tauto)]

theorem klein_term_self (A A' : Grid) (rows cols i j x y : Int) (h : inGrid rows cols i j)
    (hsame : ∀ p q, (p ≠ i ∨ q ≠ j) → A p q = A' p q) (ha : A i j = 1) (ha' : A' i j ≠ 1)
    (hx : -1 ≤ x ∧ x ≤ 1) (hy : -1 ≤ y ∧ y ≤ 1) :
    klein_term A rows cols i j x y = klein_term A' rows cols i j x y +
      (if decide (klein_resolve rows cols i j x y = some (i, j)) then 1 else 0) := by
  rw [klein_resolve_eq rows cols i j x y h hx hy]
  simp only [klein_term, Option.some.injEq, decide_eq_true_eq]
  by_cases hs : klein_cell rows cols i j x y = (i, j)
  · rw [if_pos hs, hs, ind_of_ne _ ha']
    simp only [ind, ha, if_true, zero_add]
  · rw [if_neg hs, add_zero, hsame _ _ (by
      by_contra hc
      push_neg at hc
      exact hs (Prod.ext hc.1 hc.2))]

theorem torus_self_sum (rows cols i j : Int) (h : inGrid rows cols i j) :
    sum9 (fun x y => if decide (torus_resolve rows cols i j x y = some (i, j)) then 1 else 0)
      = (torus_reads rows cols (i, j) (i, j) : Int) + 1 := by
  rw [sum9_split _ (fun d => decide (torus_resolve rows cols i j d.1 d.2 = some (i, j)))
    (fun x y => rfl)]
  have e : torus_resolve rows cols i j 0 0 = some (i, j) := by
    obtain ⟨h1, h2, h3, h4⟩ := h
    rw [torus_resolve_eq rows cols i j 0 0 ⟨h1, h2, h3, h4⟩ (by decide) (by decide)]
    simp only [wrapIdx, add_zero]
    rw [if_neg (by omega), if_neg (by omega), if_neg (by omega), if_neg (by omega)]
  simp only [e, decide_True, if_true]
  rfl

theorem klein_self_sum (rows cols i j : Int) (h : inGrid rows cols i j) :
    sum9 (fun x y => if decide (klein_resolve rows cols i j x y = some (i, j)) then 1 else 0)
      = (klein_reads rows cols (i, j) (i, j) : Int) + 1 := by
  rw [sum9_split _ (fun d => decide (klein_resolve rows cols i j d.1 d.2 = some (i, j)))
    (fun x y => rfl)]
  have e : klein_resolve rows cols i j 0 0 = some (i, j) := by
    obtain ⟨h1, h2, h3, h4⟩ := h
    rw [klein_resolve_eq rows cols i j 0 0 ⟨h1, h2, h3, h4⟩ (by decide) (by decide)]
    simp only [klein_cell, wrapIdx, add_zero]
    rw [if_neg (by omega), if_neg (by omega), if_neg (by omega), if_neg (by omega)]
  simp only [e, decide_True, if_true]
  rfl

/-- The count `torus_life` and `klein_life` test for a cell exceeds, when the
cell is alive, the count they test when it is not by the number of non-zero
offsets that resolve to the cell itself. -/
theorem chk_self_excess (A A' : Grid) (rows cols i j : Int) (h : inGrid rows cols i j)
    (hsame : ∀ p q, (p ≠ i ∨ q ≠ j) → A p q = A' p q) (ha : A i j = 1) (ha' : A' i j ≠ 1) :
    (∃ n, torus_chk A' rows cols i j = some n ∧
      torus_chk A rows cols i j = some (n + (torus_reads rows cols (i, j) (i, j) : Int))) ∧
    (∃ n, klein_chk A' rows cols i j = some n ∧
      klein_chk A rows cols i j = some (n + (klein_reads rows cols (i, j) (i, j) : Int))) := by
  have i1 : ind (A i j) = 1 := by simp only [ind, ha, if_true]
  have i0 : ind (A' i j) = 0 := ind_of_ne _ ha'
  constructor
  · refine ⟨_, chk_eq _ _ A' rows cols i j (torus_count_eq A' rows cols i j h) h, ?_⟩
    rw [torus_chk, chk_eq _ _ A rows cols i j (torus_count_eq A rows cols i j h) h,
      sum9_add _ _ _ (fun x y hx hy => torus_term_self A A' rows cols i j x y h hsame ha ha' hx hy),
      torus_self_sum rows cols i j h, i1, i0]
    congr 1
    ring
  · refine ⟨_, chk_eq _ _ A' rows cols i j (klein_count_eq A' rows cols i j h) h, ?_⟩
    rw [klein_chk, chk_eq _ _ A rows cols i j (klein_count_eq A rows cols i j h) h,
      sum9_add _ _ _ (fun x y hx hy => klein_term_self A A' rows cols i j x y h hsame ha ha' hx hy),
      klein_self_sum rows cols i j h, i1, i0]
    congr 1
    ring

theorem mem_offsets8 (d : Int × Int) (hd : d ∈ offsets8) :
    (-1 ≤ d.1 ∧ d.1 ≤ 1) ∧ (-1 ≤ d.2 ∧ d.2 ≤ 1) ∧ (d.1 ≠ 0 ∨ d.2 ≠ 0) := by
  simp only [offsets8, List.mem_cons, List.mem_nil_iff, or_false] at hd
  rcases hd with rfl | rfl | rfl | rfl | rfl | rfl | rfl | rfl <;> decide

theorem torus_reads_self_zero (rows cols i j : Int) (h : inGrid rows cols i j)
    (hr : 2 ≤ rows) (hc : 2 ≤ cols) : torus_reads rows cols (i, j) (i, j) = 0 := by
  obtain ⟨h1, h2, h3, h4⟩ := h
  unfold torus_reads
  rw [List.countP_eq_zero]
  intro d hd
  obtain ⟨hx, hy, hne⟩ := mem_offsets8 d hd
  rw [decide_eq_true_eq, torus_resolve_eq rows cols i j d.1 d.2 ⟨h1, h2, h3, h4⟩ hx hy]
  simp only [Option.some.injEq, Prod.mk.injEq, wrapIdx]
  split_ifs <;> omega

theorem klein_reads_self_zero (rows cols i j : Int) (h : inGrid rows cols i j)
    (hr : 2 ≤ rows) (hc : 2 ≤ cols) : klein_reads rows cols (i, j) (i, j) = 0 := by
  obtain ⟨h1, h2, h3, h4⟩ := h
  unfold klein_reads
  rw [List.countP_eq_zero]
  intro d hd
  obtain ⟨hx, hy, hne⟩ := mem_offsets8 d hd
  rw [decide_eq_true_eq, klein_resolve_eq rows cols i j d.1 d.2 ⟨h1, h2, h3, h4⟩ hx hy,
    Option.some.injEq]
  intro e
  have e1 := congrArg Prod.fst e
  have e2 := congrArg Prod.snd e
  unfold klein_cell wrapIdx at e1 e2
  split_ifs at e1 e2 <;> simp only at e1 e2 <;> omega

theorem torus_reads_self_pos (rows cols i j : Int) (h : inGrid rows cols i j)
    (hd : rows = 1 ∨ cols = 1) : 0 < torus_reads rows cols (i, j) (i, j) := by
  obtain ⟨h1, h2, h3, h4⟩ := h
  unfold torus_reads
  rw [List.countP_pos_iff]
  rcases hd with hd | hd
  · refine ⟨(1, 0), by decide, ?_⟩
    rw [decide_eq_true_eq,
      torus_resolve_eq rows cols i j 1 0 ⟨h1, h2, h3, h4⟩ (by decide) (by decide)]
    simp only [wrapIdx, add_zero]
    rw [if_neg (by omega), if_pos (by omega), if_neg (by omega), if_neg (by omega)]
    congr 2
    omega
  · refine ⟨(0, 1), by decide, ?_⟩
    rw [decide_eq_true_eq,
      torus_resolve_eq rows cols i j 0 1 ⟨h1, h2, h3, h4⟩ (by decide) (by decide)]
    simp only [wrapIdx, add_zero]
    rw [if_neg (by omega), if_neg (by omega), if_neg (by omega), if_pos (by omega)]
    congr 2
    omega

theorem torus_reads_self_iff (rows cols i j : Int) (h : inGrid rows cols i j) :
    torus_reads rows cols (i, j) (i, j) = 0 ↔ (2 ≤ rows ∧ 2 ≤ cols) := by
  constructor
  · intro e
    by_contra hn
    have hd : rows = 1 ∨ cols = 1 := by
      have := h.1; have := h.2.1; have := h.2.2.1; have := h.2.2.2
      omega
    have := torus_reads_self_pos rows cols i j h hd
    omega
  · intro hh
    exact torus_reads_self_zero rows cols i j h hh.1 hh.2

/-- On a one-row Klein grid the number of non-zero offsets that resolve to the
cell itself depends on the cell: on the 1×5 grid it is 2 for `(0, 0)` and 0
for `(0, 1)`; on the 1×1 grid it is 8. -/
theorem klein_reads_self_one_row :
    klein_reads 1 5 (0, 0) (0, 0) = 2 ∧ klein_reads 1 5 (0, 1) (0, 1) = 0 ∧
    klein_reads 1 1 (0, 0) (0, 0) = 8 ∧ torus_reads 1 1 (0, 0) (0, 0) = 8 := by
  decide

/-- C10, amended. For an in-range cell `(i, j)` and two grids that agree at
every other cell: `hedge_life` tests the same count for both; `torus_life` and
`klein_life` test the same count for both when `rows ≥ 2` and `cols ≥ 2`; in
general, with the cell alive in one grid and not in the other, the count they
test for the alive cell is the count for the dead cell plus the number of
non-zero offsets that resolve to `(i, j)` itself. For `torus_life` that number
is 0 exactly when `rows ≥ 2` and `cols ≥ 2`; for `klein_life` it is 0 when
`rows ≥ 2` and `cols ≥ 2`. -/
theorem centre_not_counted (A A' : Grid) (rows cols i j : Int)
    (h1 : 0 ≤ i) (h2 : i < rows) (h3 : 0 ≤ j) (h4 : j < cols)
    (hsame : ∀ p q, (p ≠ i ∨ q ≠ j) → A p q = A' p q) :
    (∃ n, hedge_chk A rows cols i j = some n ∧ hedge_chk A' rows cols i j = some n) ∧
    (2 ≤ rows → 2 ≤ cols →
      (∃ n, torus_chk A rows cols i j = some n ∧ torus_chk A' rows cols i j = some n) ∧
      (∃ n, klein_chk A rows cols i j = some n ∧ klein_chk A' rows cols i j = some n)) ∧
    (A i j = 1 → A' i j ≠ 1 →
      (∃ n, torus_chk A' rows cols i j = some n ∧
        torus_chk A rows cols i j = some (n + (torus_reads rows cols (i, j) (i, j) : Int))) ∧
      (∃ n, klein_chk A' rows cols i j = some n ∧
        klein_chk A rows cols i j = some (n + (klein_reads rows cols (i, j) (i, j) : Int)))) ∧
    (torus_reads rows cols (i, j) (i, j) = 0 ↔ (2 ≤ rows ∧ 2 ≤ cols)) ∧
    (2 ≤ rows → 2 ≤ cols → klein_reads rows cols (i, j) (i, j) = 0) := by
  have h : inGrid rows cols i j := ⟨h1, h2, h3, h4⟩
  have hs := centre_same A A' rows cols i j h1 h2 h3 h4 hsame
  exact ⟨hs.1, hs.2, fun ha ha' => chk_self_excess A A' rows cols i j h hsame ha ha',
    torus_reads_self_iff rows cols i j h,
    fun hr hc => klein_reads_self_zero rows cols i j h hr hc⟩

theorem lone_vs_empty (p q : Int) (hpq : p ≠ 0 ∨ q ≠ 0) :
    gridOf [(0, 0)] p q = gridOf [] p q := by
  simp only [gridOf, List.mem_cons, Prod.mk.injEq, List.mem_nil_iff, or_false,
    List.not_mem_nil, if_false]
  rw [if_neg (fun e => by omega)]

/-- Instances of the amended C10: the cell `(0, 0)` of a 2×2 grid, alive or
dead next to an alive `(0, 1)`, where the three counts agree; and the cell
`(0, 0)` of a 1×3 grid, where the wrapped counts differ by the number of
offsets that come back to the cell. -/
theorem centre_not_counted_witness :
    (∃ n, hedge_chk (gridOf [(0, 0), (0, 1)]) 2 2 0 0 = some n ∧
      hedge_chk (gridOf [(0, 1)]) 2 2 0 0 = some n) ∧
    (∃ n, torus_chk (gridOf [(0, 0), (0, 1)]) 2 2 0 0 = some n ∧
      torus_chk (gridOf [(0, 1)]) 2 2 0 0 = some n) ∧
    (∃ n, klein_chk (gridOf [(0, 0), (0, 1)]) 2 2 0 0 = some n ∧
      klein_chk (gridOf [(0, 1)]) 2 2 0 0 = some n) ∧
    klein_reads 2 2 (0, 0) (0, 0) = 0 ∧
    (∃ n, torus_chk (gridOf []) 1 3 0 0 = some n ∧
      torus_chk (gridOf [(0, 0)]) 1 3 0 0 = some (n + (torus_reads 1 3 (0, 0) (0, 0) : Int))) ∧
    (∃ n, klein_chk (gridOf []) 1 3 0 0 = some n ∧
      klein_chk (gridOf [(0, 0)]) 1 3 0 0 = some (n + (klein_reads 1 3 (0, 0) (0, 0) : Int))) :=
  have h := centre_not_counted (gridOf [(0, 0), (0, 1)]) (gridOf [(0, 1)]) 2 2 0 0
    (by decide) (by decide) (by decide) (by decide)
    (fun p q hpq => by
      simp only [gridOf, List.mem_cons, Prod.mk.injEq, List.mem_nil_iff, or_false]
      have hn : ¬ (p = 0 ∧ q = 0) := fun e => by omega
      simp only [hn, false_or])
  have g := centre_not_counted (gridOf [(0, 0)]) (gridOf []) 1 3 0 0
    (by decide) (by decide) (by decide) (by decide) lone_vs_empty
  ⟨h.1, (h.2.1 (by decide) (by decide)).1, (h.2.1 (by decide) (by decide)).2,
    h.2.2.2.2 (by decide) (by decide), (g.2.2.1 (by decide) (by decide)).1,
    (g.2.2.1 (by decide) (by decide)).2⟩

theorem main_option_f_set_border (e : Env) (s : String) (l : Locals) (arg : String) :
    main_option_f e (set_border s l) arg = (main_option_f e l arg).map (set_border s) := by
  simp only [main_option_f, set_border]
  cases main_case_f (e.heap l.calls) (e.heap (l.calls + 1)) l.width l.height l.sprite_size with
  | none => rfl
  | some r =>
    simp only [Option.some_bind]
    cases e.fopen arg with
    | none => rfl
    | some lines =>
      simp only [Option.some_bind]
      cases load_pattern e r.1 r.2.1 l.i l.j lines.tail (l.x, l.y, r.2.2.1) with
      | none => rfl
      | some p => rfl

theorem main_option_set_border (e : Env) (s : String) (l : Locals) (c : Char) (arg : String) :
    main_option e (set_border s l) c (if c = 'e' then s else arg)
      = (main_option e l c arg).map (phase_set_border s) := by
  unfold main_option
  by_cases hw : c = 'w'
  · subst hw; rfl
  by_cases hh : c = 'h'
  · subst hh; rfl
  by_cases he : c = 'e'
  · subst he; rfl
  by_cases hr : c = 'r'
  · subst hr; rfl
  by_cases hg : c = 'g'
  · subst hg; rfl
  by_cases hb : c = 'b'
  · subst hb; rfl
  by_cases hs : c = 's'
  · subst hs; rfl
  by_cases hf : c = 'f'
  · subst hf
    simp only [if_neg (by decide : ¬ ('f' = 'w')), if_neg (by decide : ¬ ('f' = 'h')),
      if_neg (by decide : ¬ ('f' = 'e')), if_neg (by decide : ¬ ('f' = 'r')),
      if_neg (by decide : ¬ ('f' = 'g')), if_neg (by decide : ¬ ('f' = 'b')),
      if_neg (by decide : ¬ ('f' = 's')), if_true, main_option_f_set_border]
    cases main_option_f e l arg with
    | none => rfl
    | some l' => rfl
  by_cases ho : c = 'o'
  · subst ho; rfl
  by_cases hH : c = 'H'
  · subst hH; rfl
  simp only [hw, hh, he, hr, hg, hb, hs, hf, ho, hH, if_false, Option.map_some']
  rfl

theorem main_options_set_border (e : Env) (s : String) :
    ∀ (opts : List (Char × String)) (l : Locals),
      main_options e (opts_set_border s opts) (set_border s l)
        = (main_options e opts l).map (phase_set_border s) := by
  intro opts
  induction opts with
  | nil => intro l; rfl
  | cons o rest ih =>
    intro l
    have e1 : opts_set_border s (o :: rest)
        = (o.1, if o.1 = 'e' then s else o.2) :: opts_set_border s rest := by
      simp only [opts_set_border, List.map_cons]
      by_cases he : o.1 = 'e'
      · simp only [he, if_true]
      · simp only [he, if_false]
    rw [e1]
    simp only [main_options]
    rw [main_option_set_border]
    cases main_option e l o.1 o.2 with
    | none => rfl
    | some ph =>
      cases ph with
      | returned code out => rfl
      | left code => rfl
      | proceeds l' =>
        simp only [Option.map_some', Option.some_bind, phase_set_border]
        exact ih l'

/-- What `main` does before its loop does not depend on the selector: with the
argument of every `-e` replaced by `s` the start ends in the same way, and with
the same locals but for `border`. -/
theorem main_startup_set_border (e : Env) (s : String) (argc : Int)
    (opts : List (Char × String)) :
    main_startup e argc (opts_set_border s opts)
      = (main_startup e argc opts).map (phase_set_border s) := by
  unfold main_startup
  by_cases ha : argc = 1
  · simp only [ha, if_true, Option.map_some', phase_set_border]
  · simp only [ha, if_false]
    have h := main_options_set_border e s opts main_locals
    have e0 : set_border s main_locals = main_locals := rfl
    rw [e0] at h
    rw [h]
    cases main_options e opts main_locals with
    | none => rfl
    | some ph =>
      cases ph with
      | returned code out => rfl
      | left code => rfl
      | proceeds l =>
        rcases l with ⟨w, h', sp, ws, hs, r, g, b, A, B, i, j, x, y, bd, fp, calls⟩
        cases fp
        · rfl
        · simp only [Option.map_some', Option.some_bind, phase_set_border, set_border]
          cases e.sdl_init w h' sp r g b <;> rfl

theorem main_option_cases (e : Env) (l : Locals) (c : Char) (arg : String) :
    main_option e l c arg = none ∨ (∃ l', main_option e l c arg = some (Phase.proceeds l')) ∨
      (c = 'H' ∧ main_option e l c arg = some (Phase.returned 0 [Msg.help])) := by
  unfold main_option
  by_cases hw : c = 'w'
  · simp only [hw, if_true]; exact Or.inr (Or.inl ⟨_, rfl⟩)
  by_cases hh : c = 'h'
  · simp only [hw, hh, if_true, if_false]; exact Or.inr (Or.inl ⟨_, rfl⟩)
  by_cases he : c = 'e'
  · simp only [hw, hh, he, if_true, if_false]; exact Or.inr (Or.inl ⟨_, rfl⟩)
  by_cases hr : c = 'r'
  · simp only [hw, hh, he, hr, if_true, if_false]; exact Or.inr (Or.inl ⟨_, rfl⟩)
  by_cases hg : c = 'g'
  · simp only [hw, hh, he, hr, hg, if_true, if_false]; exact Or.inr (Or.inl ⟨_, rfl⟩)
  by_cases hb : c = 'b'
  · simp only [hw, hh, he, hr, hg, hb, if_true, if_false]; exact Or.inr (Or.inl ⟨_, rfl⟩)
  by_cases hs : c = 's'
  · simp only [hw, hh, he, hr, hg, hb, hs, if_true, if_false]; exact Or.inr (Or.inl ⟨_, rfl⟩)
  by_cases hf : c = 'f'
  · simp only [hw, hh, he, hr, hg, hb, hs, hf, if_true, if_false]
    cases main_option_f e l arg with
    | none => exact Or.inl rfl
    | some l' => exact Or.inr (Or.inl ⟨l', rfl⟩)
  by_cases ho : c = 'o'
  · simp only [hw, hh, he, hr, hg, hb, hs, hf, ho, if_true, if_false]
    exact Or.inr (Or.inl ⟨_, rfl⟩)
  by_cases hH : c = 'H'
  · simp only [hw, hh, he, hr, hg, hb, hs, hf, ho, hH, if_true, if_false]
    exact Or.inr (Or.inr ⟨trivial, rfl⟩)
  simp only [hw, hh, he, hr, hg, hb, hs, hf, ho, hH, if_false]
  exact Or.inr (Or.inl ⟨_, rfl⟩)

theorem main_options_cases (e : Env) :
    ∀ (opts : List (Char × String)) (l : Locals),
      main_options e opts l = none ∨ (∃ l', main_options e opts l = some (Phase.proceeds l')) ∨
        ((∃ o, o ∈ opts ∧ o.1 = 'H') ∧
          main_options e opts l = some (Phase.returned 0 [Msg.help])) := by
  intro opts
  induction opts with
  | nil => intro l; exact Or.inr (Or.inl ⟨l, rfl⟩)
  | cons o rest ih =>
    intro l
    simp only [main_options]
    rcases main_option_cases e l o.1 o.2 with h | ⟨l', h⟩ | ⟨hc, h⟩
    · rw [h]; exact Or.inl rfl
    · rw [h]
      simp only [Option.some_bind]
      rcases ih l' with g | ⟨l'', g⟩ | ⟨⟨o', ho', hH⟩, g⟩
      · exact Or.inl g
      · exact Or.inr (Or.inl ⟨l'', g⟩)
      · exact Or.inr (Or.inr ⟨⟨o', List.mem_cons_of_mem _ ho', hH⟩, g⟩)
    · rw [h]
      exact Or.inr (Or.inr ⟨⟨o, List.mem_cons_self _ _, hc⟩, rfl⟩)

/-- The ways the start of `main` can end. -/
theorem main_startup_cases (e : Env) (argc : Int) (opts : List (Char × String)) :
    main_startup e argc opts = none ∨
    (argc = 1 ∧ main_startup e argc opts = some (Phase.returned 0 [Msg.usage])) ∨
    ((∃ o, o ∈ opts ∧ o.1 = 'H') ∧
      main_startup e argc opts = some (Phase.returned 0 [Msg.help])) ∨
    (∃ (l : Locals) (code : Int), e.sdl_init l.width l.height l.sprite_size l.red l.green l.blue = some code ∧
      main_startup e argc opts = some (Phase.left code)) ∨
    (∃ l : Locals, l.fp = true ∧
      e.sdl_init l.width l.height l.sprite_size l.red l.green l.blue = none ∧
      main_startup e argc opts = some (Phase.proceeds l)) := by
  unfold main_startup
  by_cases ha : argc = 1
  · rw [if_pos ha]
    exact Or.inr (Or.inl ⟨ha, rfl⟩)
  · rw [if_neg ha]
    rcases main_options_cases e opts main_locals with h | ⟨l, h⟩ | ⟨hH, h⟩
    · rw [h]; exact Or.inl rfl
    · rw [h]
      simp only [Option.some_bind]
      cases hf : l.fp with
      | false => exact Or.inl (by simp only [if_true])
      | true =>
        simp only [if_false, Bool.true_eq_false]
        cases hs : e.sdl_init l.width l.height l.sprite_size l.red l.green l.blue with
        | none => exact Or.inr (Or.inr (Or.inr (Or.inr ⟨l, hf, hs, rfl⟩)))
        | some code => exact Or.inr (Or.inr (Or.inr (Or.inl ⟨l, code, hs, rfl⟩)))
    · rw [h]
      exact Or.inr (Or.inr (Or.inl ⟨hH, rfl⟩))

theorem main_of_startup (e : Env) (argc : Int) (opts : List (Char × String)) (l : Locals)
    (border : String) (ws hs : Int) (A B : Grid) (quit : Nat → Bool) (n : Nat)
    (h : main_startup e argc opts = some (Phase.proceeds l))
    (hb : l.border = some border) (hws : l.ws = some ws) (hhs : l.hs = some hs)
    (hA : l.A = some (some A)) (hB : l.B = some (some B)) :
    main e argc opts quit n = main_run border ws hs quit n (A, B) := by
  simp only [main, h, Option.some_bind, hb, hws, hhs, hA, hB]

theorem main_case_f_full (width height s : Int) (hs : 0 < s) :
    main_case_f fullHeap fullHeap width height s
      = some (Int.tdiv width s, Int.tdiv height s,
          some (overwrite (fun _ _ => 0) fullHeap.junk (Int.tdiv width s) (Int.tdiv height s)),
          some (overwrite (fun _ _ => 0) fullHeap.junk (Int.tdiv width s)
            (Int.tdiv height s))) := by
  have hal : ∀ rows : Int, alloc_rows fullHeap.row_ok rows.toNat 0 = true :=
    fun rows => alloc_rows_ok _ _ _ (fun _ _ _ => rfl)
  have hi : ∀ rows cols : Int, init_matrix fullHeap rows cols
      = some (some (overwrite (fun _ _ => 0) fullHeap.junk rows cols)) := by
    intro rows cols
    rw [init_matrix_eq, hal rows]
    rfl
  have h0 : ¬ s = 0 := by omega
  have h1 : ∀ a : Int, ¬ (a = -2147483648 ∧ s = -1) := fun a h => by omega
  simp only [main_case_f, cdiv, h0, h1, if_false, Option.some_bind, hi]

theorem main_option_at_f (e : Env) (l : Locals) (arg : String) :
    main_option e l 'f' arg = (main_option_f e l arg).bind fun l => some (Phase.proceeds l) := by
  simp only [main_option, if_neg (by decide : ¬ ('f' = 'w')), if_neg (by decide : ¬ ('f' = 'h')),
    if_neg (by decide : ¬ ('f' = 'e')), if_neg (by decide : ¬ ('f' = 'r')),
    if_neg (by decide : ¬ ('f' = 'g')), if_neg (by decide : ¬ ('f' = 'b')),
    if_neg (by decide : ¬ ('f' = 's')), if_true]

/-- The `-f` case on a file of a header and one line, with both matrices
allocated, the origin assigned and the cell of the line inside the grid. -/
theorem main_option_f_one_line (e : Env) (l : Locals) (arg hd ln : String) (ws hs : Int)
    (Z Z' : Grid) (i0 j0 x0 y0 : Int)
    (hcase : main_case_f (e.heap l.calls) (e.heap (l.calls + 1)) l.width l.height l.sprite_size
      = some (ws, hs, some Z, some Z'))
    (hfo : e.fopen arg = some [hd, ln]) (hsc : e.sscanf ln "%d %d" = [x0, y0])
    (hi : l.i = some i0) (hj : l.j = some j0) (hin : inGrid ws hs (i0 + x0) (j0 + y0)) :
    main_option_f e l arg = some { l with
      ws := some ws, hs := some hs, A := some (some (setCell Z (i0 + x0) (j0 + y0) 1)),
      B := some (some Z'), x := some x0, y := some y0, fp := true, calls := l.calls + 2 } := by
  simp only [main_option_f, hcase, Option.some_bind, hfo, List.tail_cons, load_pattern, hsc,
    assign2, hi, hj, store, hin, if_true]

theorem main_startup_three (e : Env) (argc : Int) (o1 o2 o3 : Char × String)
    (l1 l2 l3 : Locals) (ha : argc ≠ 1)
    (h1 : main_option e main_locals o1.1 o1.2 = some (Phase.proceeds l1))
    (h2 : main_option e l1 o2.1 o2.2 = some (Phase.proceeds l2))
    (h3 : main_option e l2 o3.1 o3.2 = some (Phase.proceeds l3))
    (hfp : l3.fp = true)
    (hsdl : e.sdl_init l3.width l3.height l3.sprite_size l3.red l3.green l3.blue = none) :
    main_startup e argc [o1, o2, o3] = some (Phase.proceeds l3) := by
  simp only [main_startup, ha, if_false, main_options, h1, h2, h3, Option.some_bind, hfp,
    Bool.true_eq_false, hsdl]

/-- The run `-e moebius -o 1,1 -f p.lif` reaches the loop of `main` with the
selector `"moebius"`, the 400×300 grids of the default screen and the cell
`(1, 1)` of the pattern alive. -/
theorem demo_startup :
    ∃ (l : Locals) (A B : Grid), main_startup demoEnv 7 demoOpts = some (Phase.proceeds l) ∧
      l.border = some "moebius" ∧ l.ws = some 400 ∧ l.hs = some 300 ∧
      l.A = some (some A) ∧ l.B = some (some B) ∧ A 1 1 = 1 := by
  have hf := main_case_f_full 800 600 2 (by decide)
  have e1 : Int.tdiv 800 2 = 400 := by decide
  have e2 : Int.tdiv 600 2 = 300 := by decide
  rw [e1, e2] at hf
  have h1 : main_option demoEnv main_locals 'e' "moebius"
      = some (Phase.proceeds { main_locals with border := some "moebius" }) := rfl
  have h2 : main_option demoEnv { main_locals with border := some "moebius" } 'o' "1,1"
      = some (Phase.proceeds
          { main_locals with border := some "moebius", i := some 1, j := some 1 }) := rfl
  have h3 := main_option_f_one_line demoEnv
    { main_locals with border := some "moebius", i := some 1, j := some 1 }
    "p.lif" "#Life 1.06" "0 0" 400 300 _ _ 1 1 0 0 hf rfl rfl rfl rfl (by decide)
  have h3' := (main_option_at_f demoEnv
    { main_locals with border := some "moebius", i := some 1, j := some 1 } "p.lif").trans
    (by rw [h3])
  refine ⟨_, _, _, main_startup_three demoEnv 7 ('e', "moebius") ('o', "1,1") ('f', "p.lif")
    _ _ _ (by decide) h1 h2 h3' rfl rfl, rfl, rfl, rfl, rfl, rfl, ?_⟩
  simp only [setCell]
  rw [if_pos (by decide)]

theorem main_passes_other (border : String)
    (hb : border ≠ "hedge" ∧ border ≠ "torus" ∧ border ≠ "klein") (A B : Grid) (ws hs : Int) :
    ∀ n, main_passes border ws hs n (A, B) = some (A, B) := by
  intro n
  induction n with
  | zero => rfl
  | succ n ih => simp only [main_passes, ih, Option.some_bind, main_pass_other border hb]

/-- C18 as stated fails: the run `-e moebius -o 1,1 -f p.lif`, with a readable
pattern file and every allocation succeeding, is not stopped at startup: `main`
reaches its loop with `border = "moebius"` and the pattern loaded, and is in
the loop with the same two grids before the first pass and after three passes.
It has neither returned nor reported anything. -/
theorem unknown_border_keeps_running :
    ∃ (l : Locals) (A B : Grid),
      main_startup demoEnv 7 demoOpts = some (Phase.proceeds l) ∧
      l.border = some "moebius" ∧ A 1 1 = 1 ∧
      main demoEnv 7 demoOpts (fun _ => false) 0 = some (Outcome.running A B) ∧
      main demoEnv 7 demoOpts (fun _ => false) 3 = some (Outcome.running A B) := by
  obtain ⟨l, A, B, hst, hb, hws, hhs, hA, hB, ha⟩ := demo_startup
  refine ⟨l, A, B, hst, hb, ha, ?_, ?_⟩
  · rw [main_of_startup demoEnv 7 demoOpts l "moebius" 400 300 A B _ 0 hst hb hws hhs hA hB]
    rfl
  · rw [main_of_startup demoEnv 7 demoOpts l "moebius" 400 300 A B _ 3 hst hb hws hhs hA hB]
    rcases main_run_other "moebius" (by decide) A B 400 300 (fun _ => false) 3 with
      ⟨e, -⟩ | ⟨-, k, -, hq⟩
    · exact e
    · exact absurd hq (by decide)

/-- C18, amended. For every border string other than `"hedge"`, `"torus"` and
`"klein"`, `main` does not reject the selector.  A pass of its loop calls no
life function and leaves both grids as they are, so the loop keeps the grids it
started with until a quit event, on which `main` returns 0.  Before the loop
the selector is only stored: replacing the argument of every `-e` by any
string `s` changes nothing in how the start of `main` ends, only the value of
`border`, so the loop is reached with an unrecognised selector exactly when it
is with a recognised one.  The start of `main` ends in one of these ways:
undefined behaviour; `return 0` after the usage hint when `argc` is 1;
`return 0` after the help text when `-H` is among the options; the process
ending inside `init_sdl_info`, which is not given `border`; or the loop, with
a pattern file opened.  A run that reaches the loop with the selector is then
in the loop with its two grids unchanged, or has returned 0 on a quit
event. -/
theorem unknown_border_steps_nothing (border : String)
    (hb : border ≠ "hedge" ∧ border ≠ "torus" ∧ border ≠ "klein") (A B : Grid) (ws hs : Int) :
    main_pass border A B ws hs = some (A, B) ∧
    (∀ n, main_passes border ws hs n (A, B) = some (A, B)) ∧
    (∀ (quit : Nat → Bool) (n : Nat),
      (main_run border ws hs quit n (A, B) = some (Outcome.running A B) ∧
        ∀ k, k < n → quit k = false) ∨
      (main_run border ws hs quit n (A, B) = some (Outcome.exited 0) ∧
        ∃ k, k < n ∧ quit k = true)) ∧
    (∀ (e : Env) (argc : Int) (opts : List (Char × String)) (s : String),
      main_startup e argc (opts_set_border s opts)
        = (main_startup e argc opts).map (phase_set_border s)) ∧
    (∀ (e : Env) (argc : Int) (opts : List (Char × String)),
      main_startup e argc opts = none ∨
      (argc = 1 ∧ main_startup e argc opts = some (Phase.returned 0 [Msg.usage])) ∨
      ((∃ o, o ∈ opts ∧ o.1 = 'H') ∧
        main_startup e argc opts = some (Phase.returned 0 [Msg.help])) ∨
      (∃ (l : Locals) (code : Int),
        e.sdl_init l.width l.height l.sprite_size l.red l.green l.blue = some code ∧
        main_startup e argc opts = some (Phase.left code)) ∨
      (∃ l : Locals, l.fp = true ∧
        e.sdl_init l.width l.height l.sprite_size l.red l.green l.blue = none ∧
        main_startup e argc opts = some (Phase.proceeds l))) ∧
    (∀ (e : Env) (argc : Int) (opts : List (Char × String)) (l : Locals)
      (quit : Nat → Bool) (n : Nat),
      main_startup e argc opts = some (Phase.proceeds l) → l.border = some border →
      l.ws = some ws → l.hs = some hs → l.A = some (some A) → l.B = some (some B) →
      (main e argc opts quit n = some (Outcome.running A B) ∧ ∀ k, k < n → quit k = false) ∨
      (main e argc opts quit n = some (Outcome.exited 0) ∧ ∃ k, k < n ∧ quit k = true)) := by
  refine ⟨main_pass_other border hb A B ws hs, main_passes_other border hb A B ws hs,
    fun quit n => main_run_other border hb A B ws hs quit n,
    fun e argc opts s => main_startup_set_border e s argc opts,
    fun e argc opts => main_startup_cases e argc opts, ?_⟩
  intro e argc opts l quit n hst hbd hws hhs hA hB
  rw [main_of_startup e argc opts l border ws hs A B quit n hst hbd hws hhs hA hB]
  exact main_run_other border hb A B ws hs quit n

/-- Instance of the amended C18: the run `-e moebius -o 1,1 -f p.lif`. -/
theorem unknown_border_steps_nothing_witness :
    ∃ A B : Grid,
      main_pass "moebius" A B 400 300 = some (A, B) ∧
      (∀ (quit : Nat → Bool) (n : Nat),
        (main demoEnv 7 demoOpts quit n = some (Outcome.running A B) ∧
          ∀ k, k < n → quit k = false) ∨
        (main demoEnv 7 demoOpts quit n = some (Outcome.exited 0) ∧
          ∃ k, k < n ∧ quit k = true)) ∧
      (∀ (e : Env) (argc : Int) (opts : List (Char × String)) (s : String),
        main_startup e argc (opts_set_border s opts)
          = (main_startup e argc opts).map (phase_set_border s)) := by
  obtain ⟨l, A, B, hst, hbd, hws, hhs, hA, hB, -⟩ := demo_startup
  have h := unknown_border_steps_nothing "moebius" (by decide) A B 400 300
  exact ⟨A, B, h.1, fun quit n => h.2.2.2.2.2 demoEnv 7 demoOpts l quit n hst hbd hws hhs hA hB,
    h.2.2.2.1⟩

end Life
